import Mathlib

/-!
Verification of the uniffi `ComponentInterface` model.

This file shallowly embeds the interface model of `uniffi_bindgen/src/interface`
(`mod.rs`, `function.rs`, `object.rs`, `enum_.rs`, `record.rs`, `callbacks.rs`,
`attributes.rs`, `literal.rs`) together with the two build pipelines that
finalize a `ComponentInterface` (`lib.rs` `parse_iface` and
`macro_metadata/ci.rs` `add_to_ci`), and proves properties of checksumming,
FFI derivation, consistency checking and recursive type enumeration.

Hashing is modelled at the `std::hash::Hasher` interface: every `Hash`
implementation in the source is translated into the exact sequence of
`write_*` calls it performs (a `List HashToken`), and the hasher itself
(`DefaultHasher`, which lives in the Rust standard library, outside this
repository) is an arbitrary function from token streams to numbers.
-/

namespace Uniffi

/-- Tokens written to a `std::hash::Hasher`.  Each constructor stands for one
`write_*` call: `u8`/`u64`/`i64`/`usize` for the fixed-width writes, `str` for
the `write(self.as_bytes())` call performed by `str::hash` (which is followed
by a `write_u8 0xff` terminator, emitted separately). -/
inductive HashToken where
  | u8 (n : Nat)
  | u64 (n : Nat)
  | i64 (n : Int)
  | usize (n : Nat)
  | str (s : String)
deriving DecidableEq

/-- A hasher in the sense of `std::hash::Hasher`: it consumes the sequence of
written tokens and produces the `finish()` value.  `DefaultHasher` is one
particular such function. -/
abbrev Hasher := List HashToken → Nat

/-- Modelled from the spec: the closed `Type` variant set of §3 (the defining
file `interface/types/mod.rs` is not part of the sources; the variant set is
taken from the spec and from the uses in `mod.rs`, `literal.rs` and the
tests).  Named `UType` because `Type` is reserved in Lean. -/
inductive UType where
  | uint8 | uint16 | uint32 | uint64
  | int8 | int16 | int32 | int64
  | float32 | float64
  | boolean
  | string
  | object (nm : String)
  | record (nm : String)
  | enum (nm : String)
  | error (nm : String)
  | callbackInterface (nm : String)
  | optional (t : UType)
  | sequence (t : UType)
  | map (k : UType) (v : UType)
  | external (nm : String) (crate_name : String)
  | custom (nm : String) (builtin : UType)
deriving DecidableEq

/-- Modelled from the spec (§4.6, the `Type::iter_types` of the missing
`types/mod.rs`): a type yields itself and then the types of its immediate
structural components (`Optional`/`Sequence`/`Map`). -/
def UType.iter_types : UType → List UType
  | .optional t => .optional t :: t.iter_types
  | .sequence t => .sequence t :: t.iter_types
  | .map k v => .map k v :: (k.iter_types ++ v.iter_types)
  | t => [t]

/-- Literal values, from `interface/literal.rs`. -/
inductive Radix where
  | decimal
  | octal
  | hexadecimal
deriving DecidableEq

/-- Discriminant values of `Radix` (`Decimal = 10, Octal = 8, Hexadecimal = 16`
in the source). -/
def Radix.discr : Radix → Nat
  | .decimal => 10
  | .octal => 8
  | .hexadecimal => 16

/-- Literal values from `interface/literal.rs` (used for default arguments). -/
inductive Literal where
  | boolean (b : Bool)
  | string (s : String)
  | uint (n : Nat) (r : Radix) (t : UType)
  | int (n : Int) (r : Radix) (t : UType)
  | float (s : String) (t : UType)
  | enum (s : String) (t : UType)
  | emptySequence
  | emptyMap
  | null
deriving DecidableEq

/-- Method receiver conventions, from `interface/attributes.rs` (`SelfType`). -/
inductive SelfType where
  | byArc
deriving DecidableEq

/-- Parsed UDL attributes, from `interface/attributes.rs` (`Attribute`). -/
inductive Attribute where
  | byRef
  | enum
  | error
  | name (s : String)
  | selfType (st : SelfType)
  | threadsafe
  | throws (s : String)
  | external (crate_name : String)
  | custom
deriving DecidableEq

/-- `FunctionAttributes` newtype over `Vec<Attribute>` from `attributes.rs`. -/
structure FunctionAttributes where
  attrs : List Attribute
deriving DecidableEq

/-- `MethodAttributes` newtype over `Vec<Attribute>` from `attributes.rs`. -/
structure MethodAttributes where
  attrs : List Attribute
deriving DecidableEq

/-- `ConstructorAttributes` newtype over `Vec<Attribute>` from `attributes.rs`. -/
structure ConstructorAttributes where
  attrs : List Attribute
deriving DecidableEq

/-- `MethodAttributes::get_self_by_arc` from `attributes.rs`. -/
def MethodAttributes.get_self_by_arc (a : MethodAttributes) : Bool :=
  a.attrs.any fun at_ => match at_ with
    | .selfType .byArc => true
    | _ => false

/-- Modelled from the spec (§4.3, the missing `interface/ffi.rs`): low-level
FFI types; scalars map 1:1, structured values to the byte-buffer type,
objects to an opaque handle, callback interfaces to a function-pointer slot. -/
inductive FFIType where
  | uint8 | uint16 | uint32 | uint64
  | int8 | int16 | int32 | int64
  | float32 | float64
  | rustArcPtr
  | rustBuffer
  | foreignBytes
  | foreignCallback
deriving DecidableEq

/-- Modelled from the spec (§4.3): the total `Type → FFIType` lowering
(`impl From<&Type> for FFIType` of the missing `ffi.rs`). -/
def ffiTypeOf : UType → FFIType
  | .uint8 => .uint8
  | .uint16 => .uint16
  | .uint32 => .uint32
  | .uint64 => .uint64
  | .int8 => .int8
  | .int16 => .int16
  | .int32 => .int32
  | .int64 => .int64
  | .float32 => .float32
  | .float64 => .float64
  | .boolean => .int8
  | .string => .rustBuffer
  | .object _ => .rustArcPtr
  | .record _ => .rustBuffer
  | .enum _ => .rustBuffer
  | .error _ => .rustBuffer
  | .callbackInterface _ => .foreignCallback
  | .optional _ => .rustBuffer
  | .sequence _ => .rustBuffer
  | .map _ _ => .rustBuffer
  | .external _ _ => .rustBuffer
  | .custom _ b => ffiTypeOf b

/-- FFI argument descriptor (`FFIArgument` of the missing `ffi.rs`, fields as
used by `mod.rs`, `function.rs`, `object.rs`, `callbacks.rs`). -/
structure FFIArgument where
  name : String
  type_ : FFIType
deriving DecidableEq

/-- FFI function descriptor (`FFIFunction` of the missing `ffi.rs`, fields as
used throughout the sources; `Default` gives empty name, no args, no return). -/
structure FFIFunction where
  name : String
  arguments : List FFIArgument
  return_type : Option FFIType
deriving DecidableEq

/-- The `Default::default()` FFI function descriptor. -/
def FFIFunction.dflt : FFIFunction :=
  { name := "", arguments := [], return_type := none }

/-- Function/constructor/method argument, from `interface/function.rs`. -/
structure Argument where
  name : String
  type_ : UType
  by_ref : Bool
  optional : Bool
  default : Option Literal
deriving DecidableEq

/-- `Argument::iter_types` from `function.rs`. -/
def Argument.iter_types (a : Argument) : List UType :=
  a.type_.iter_types

/-- `From<&Argument> for FFIArgument` from `function.rs`. -/
def Argument.toFFI (a : Argument) : FFIArgument :=
  { name := a.name, type_ := ffiTypeOf a.type_ }

/-- Standalone function, from `interface/function.rs`. -/
structure Function where
  name : String
  arguments : List Argument
  return_type : Option UType
  ffi_func : FFIFunction
  attributes : FunctionAttributes
deriving DecidableEq

/-- `Function::derive_ffi_func` from `function.rs`: overwrites the derived
descriptor with `{ci_prefix}_{name}`, lowered arguments and return type. -/
def Function.derive_ffi_func (ci_pref : String) (f : Function) : Function :=
  { f with ffi_func :=
      { name := ci_pref ++ "_" ++ f.name
        arguments := f.arguments.map Argument.toFFI
        return_type := f.return_type.map ffiTypeOf } }

/-- Record field, from `interface/record.rs`. -/
structure Field where
  name : String
  type_ : UType
  required : Bool
  default : Option Literal
deriving DecidableEq

/-- `Field::iter_types` from `record.rs`. -/
def Field.iter_types (f : Field) : List UType :=
  f.type_.iter_types

/-- Record declaration, from `interface/record.rs`. -/
structure Record where
  name : String
  fields : List Field
deriving DecidableEq

/-- `Record::iter_types` from `record.rs`. -/
def Record.iter_types (r : Record) : List UType :=
  r.fields.flatMap Field.iter_types

/-- Enum variant, from `interface/enum_.rs`. -/
structure Variant where
  name : String
  fields : List Field
deriving DecidableEq

/-- `Variant::has_fields` from `enum_.rs`. -/
def Variant.has_fields (v : Variant) : Bool :=
  !v.fields.isEmpty

/-- `Variant::iter_types` from `enum_.rs`. -/
def Variant.iter_types (v : Variant) : List UType :=
  v.fields.flatMap Field.iter_types

/-- Enum declaration, from `interface/enum_.rs`. -/
structure Enum where
  name : String
  variants : List Variant
  flat : Bool
deriving DecidableEq

/-- `Enum::is_flat` from `enum_.rs`: returns the stored `flat` flag. -/
def Enum.is_flat (e : Enum) : Bool :=
  e.flat

/-- `Enum::iter_types` from `enum_.rs`. -/
def Enum.iter_types (e : Enum) : List UType :=
  e.variants.flatMap Variant.iter_types

/-- Modelled from the spec: the enum builder (the `APIConverter` impls
mentioned in `enum_.rs` are not part of the sources).  Per §3, the `flat`
flag is set so that `flat ⇔ no variant has fields`. -/
def mkEnum (nm : String) (vs : List Variant) : Enum :=
  { name := nm, variants := vs, flat := vs.all fun v => v.fields.isEmpty }

/-- Error declaration.  Modelled from the spec (§3 `Error{name, variant set}`;
the defining `interface/error.rs` is not part of the sources, but `mod.rs`
looks errors up by their `name` field). -/
structure UError where
  name : String
  variants : List Variant
deriving DecidableEq

/-- Modelled from the spec: `Error::iter_types` yields the types of the
variant fields, like an enum. -/
def UError.iter_types (e : UError) : List UType :=
  e.variants.flatMap Variant.iter_types

/-- Object constructor, from `interface/object.rs`. -/
structure Constructor where
  name : String
  arguments : List Argument
  ffi_func : FFIFunction
  attributes : ConstructorAttributes
deriving DecidableEq

/-- `Constructor::is_primary_constructor` from `object.rs`. -/
def Constructor.is_primary_constructor (c : Constructor) : Bool :=
  c.name == "new"

/-- `Constructor::iter_types` from `object.rs`. -/
def Constructor.iter_types (c : Constructor) : List UType :=
  c.arguments.flatMap Argument.iter_types

/-- `Constructor::derive_ffi_func` from `object.rs`: name is
`{ci_prefix}_{obj_prefix}_{name}`, return type is the opaque pointer. -/
def Constructor.derive_ffi_func (ci_pref obj_pref : String) (c : Constructor) :
    Constructor :=
  { c with ffi_func :=
      { name := ci_pref ++ "_" ++ obj_pref ++ "_" ++ c.name
        arguments := c.arguments.map Argument.toFFI
        return_type := some .rustArcPtr } }

/-- Object method, from `interface/object.rs`. -/
structure Method where
  name : String
  object_name : String
  return_type : Option UType
  arguments : List Argument
  ffi_func : FFIFunction
  attributes : MethodAttributes
deriving DecidableEq

/-- `Method::full_arguments` from `object.rs`: the implicit `ptr` receiver
argument followed by the declared arguments. -/
def Method.full_arguments (m : Method) : List Argument :=
  { name := "ptr"
    type_ := .object m.object_name
    by_ref := !m.attributes.get_self_by_arc
    optional := false
    default := none } :: m.arguments

/-- `Method::iter_types` from `object.rs`: argument types then return type. -/
def Method.iter_types (m : Method) : List UType :=
  m.arguments.flatMap Argument.iter_types ++
    (match m.return_type with
     | some t => t.iter_types
     | none => [])

/-- `Method::derive_ffi_func` from `object.rs`. -/
def Method.derive_ffi_func (ci_pref obj_pref : String) (m : Method) : Method :=
  { m with ffi_func :=
      { name := ci_pref ++ "_" ++ obj_pref ++ "_" ++ m.name
        arguments := m.full_arguments.map Argument.toFFI
        return_type := m.return_type.map ffiTypeOf } }

/-- Object declaration, from `interface/object.rs`. -/
structure Object where
  name : String
  constructors : List Constructor
  methods : List Method
  ffi_func_free : FFIFunction
  uses_deprecated_threadsafe_attribute : Bool
deriving DecidableEq

/-- `Object::iter_types` from `object.rs`: method types then constructor
types. -/
def Object.iter_types (o : Object) : List UType :=
  o.methods.flatMap Method.iter_types ++
    o.constructors.flatMap Constructor.iter_types

/-- `Object::iter_ffi_function_definitions` from `object.rs`: the free
function, then constructor descriptors, then method descriptors. -/
def Object.iter_ffi_function_definitions (o : Object) : List FFIFunction :=
  o.ffi_func_free :: (o.constructors.map Constructor.ffi_func ++
    o.methods.map Method.ffi_func)

/-- `Object::derive_ffi_funcs` from `object.rs`. -/
def Object.derive_ffi_funcs (ci_pref : String) (o : Object) : Object :=
  { o with
      ffi_func_free :=
        { name := "ffi_" ++ ci_pref ++ "_" ++ o.name ++ "_object_free"
          arguments := [{ name := "ptr", type_ := .rustArcPtr }]
          return_type := none }
      constructors := o.constructors.map (Constructor.derive_ffi_func ci_pref o.name)
      methods := o.methods.map (Method.derive_ffi_func ci_pref o.name) }

/-- `Object::get_method` from `object.rs`: filters the methods by name and
panics unless exactly one matches.  The panic (`"{} methods named {}"`) is
modelled as the `error` case carrying the match count and the name. -/
def Object.get_method (o : Object) (nm : String) : Except (Nat × String) Method :=
  match o.methods.filter (fun m => m.name == nm) with
  | [m] => .ok m
  | ms => .error (ms.length, nm)

/-- Callback interface declaration, from `interface/callbacks.rs`. -/
structure CallbackInterface where
  name : String
  methods : List Method
  ffi_init_callback : FFIFunction
deriving DecidableEq

/-- `CallbackInterface::iter_types` from `callbacks.rs`. -/
def CallbackInterface.iter_types (cb : CallbackInterface) : List UType :=
  cb.methods.flatMap Method.iter_types

/-- `CallbackInterface::derive_ffi_funcs` from `callbacks.rs`. -/
def CallbackInterface.derive_ffi_funcs (ci_pref : String)
    (cb : CallbackInterface) : CallbackInterface :=
  { cb with ffi_init_callback :=
      { name := "ffi_" ++ ci_pref ++ "_" ++ cb.name ++ "_init_callback"
        arguments := [{ name := "callback_stub", type_ := .foreignCallback }]
        return_type := none } }

/-- Modelled from the spec (§4.1, the `TypeUniverse` of the missing
`types/mod.rs`): a name-to-type registry; only the lookup
`get_type_definition` is needed by the embedded code. -/
structure TypeUniverse where
  defs : List (String × UType)
deriving DecidableEq

/-- `TypeUniverse::get_type_definition`: lookup by name, `none` if absent. -/
def TypeUniverse.get_type_definition (u : TypeUniverse) (nm : String) :
    Option UType :=
  (u.defs.find? fun p => p.1 == nm).map Prod.snd

/-- The complete component interface, from `interface/mod.rs`.  The field
`namespace` of the source is called `namespace_` (Lean keyword). -/
structure ComponentInterface where
  uniffi_version : String
  types : TypeUniverse
  namespace_ : String
  enums : List Enum
  records : List Record
  functions : List Function
  objects : List Object
  callback_interfaces : List CallbackInterface
  errors : List UError
deriving DecidableEq

namespace ComponentInterface

/-- `ComponentInterface::get_record_definition` from `mod.rs`. -/
def get_record_definition (ci : ComponentInterface) (nm : String) :
    Option Record :=
  ci.records.find? fun r => r.name == nm

/-- `ComponentInterface::get_enum_definition` from `mod.rs`. -/
def get_enum_definition (ci : ComponentInterface) (nm : String) : Option Enum :=
  ci.enums.find? fun e => e.name == nm

/-- `ComponentInterface::get_error_definition` from `mod.rs`. -/
def get_error_definition (ci : ComponentInterface) (nm : String) :
    Option UError :=
  ci.errors.find? fun e => e.name == nm

/-- `ComponentInterface::get_object_definition` from `mod.rs`. -/
def get_object_definition (ci : ComponentInterface) (nm : String) :
    Option Object :=
  ci.objects.find? fun o => o.name == nm

/-- `ComponentInterface::get_callback_interface_definition` from `mod.rs`. -/
def get_callback_interface_definition (ci : ComponentInterface) (nm : String) :
    Option CallbackInterface :=
  ci.callback_interfaces.find? fun cb => cb.name == nm

end ComponentInterface

/-! ## Hash-token encodings

Each `tokens` function below is the exact sequence of `Hasher::write_*` calls
performed by the corresponding `Hash` implementation (derived or hand-written)
in the source, at the granularity of the `HashToken` abstraction. -/

/-- `str::hash`: `write(self.as_bytes())` then `write_u8(0xff)`. -/
def strTokens (s : String) : List HashToken :=
  [.str s, .u8 255]

/-- `bool::hash`: `write_u8(self as u8)`. -/
def boolTokens (b : Bool) : List HashToken :=
  [.u8 (cond b 1 0)]

/-- Concatenation of per-element token streams. -/
def concatTokens (f : α → List HashToken) : List α → List HashToken
  | [] => []
  | x :: xs => f x ++ concatTokens f xs

/-- `Vec<T>::hash` (slice hashing): the length, then each element. -/
def listTokens (f : α → List HashToken) (l : List α) : List HashToken :=
  HashToken.usize l.length :: concatTokens f l

/-- `Option<T>::hash` (derived): the discriminant, then the payload. -/
def optionTokens (f : α → List HashToken) : Option α → List HashToken
  | none => [.u64 0]
  | some x => .u64 1 :: f x

/-- Derived `Hash` for the `Type` enum: discriminant then payloads. -/
def UType.tokens : UType → List HashToken
  | .uint8 => [.u64 0]
  | .uint16 => [.u64 1]
  | .uint32 => [.u64 2]
  | .uint64 => [.u64 3]
  | .int8 => [.u64 4]
  | .int16 => [.u64 5]
  | .int32 => [.u64 6]
  | .int64 => [.u64 7]
  | .float32 => [.u64 8]
  | .float64 => [.u64 9]
  | .boolean => [.u64 10]
  | .string => [.u64 11]
  | .object nm => .u64 12 :: strTokens nm
  | .record nm => .u64 13 :: strTokens nm
  | .enum nm => .u64 14 :: strTokens nm
  | .error nm => .u64 15 :: strTokens nm
  | .callbackInterface nm => .u64 16 :: strTokens nm
  | .optional t => .u64 17 :: t.tokens
  | .sequence t => .u64 18 :: t.tokens
  | .map k v => .u64 19 :: (k.tokens ++ v.tokens)
  | .external nm crate => .u64 20 :: (strTokens nm ++ strTokens crate)
  | .custom nm b => .u64 21 :: (strTokens nm ++ b.tokens)

/-- Derived `Hash` for `Radix` (explicit discriminants 10/8/16). -/
def Radix.tokens (r : Radix) : List HashToken :=
  [.u64 r.discr]

/-- Derived `Hash` for `Literal` from `literal.rs`. -/
def Literal.tokens : Literal → List HashToken
  | .boolean b => .u64 0 :: boolTokens b
  | .string s => .u64 1 :: strTokens s
  | .uint n r t => .u64 2 :: (.u64 n :: (r.tokens ++ t.tokens))
  | .int n r t => .u64 3 :: (.i64 n :: (r.tokens ++ t.tokens))
  | .float s t => .u64 4 :: (strTokens s ++ t.tokens)
  | .enum s t => .u64 5 :: (strTokens s ++ t.tokens)
  | .emptySequence => [.u64 6]
  | .emptyMap => [.u64 7]
  | .null => [.u64 8]

/-- Derived `Hash` for `SelfType` from `attributes.rs`. -/
def SelfType.tokens : SelfType → List HashToken
  | .byArc => [.u64 0]

/-- Derived `Hash` for `Attribute` from `attributes.rs`. -/
def Attribute.tokens : Attribute → List HashToken
  | .byRef => [.u64 0]
  | .enum => [.u64 1]
  | .error => [.u64 2]
  | .name s => .u64 3 :: strTokens s
  | .selfType st => .u64 4 :: st.tokens
  | .threadsafe => [.u64 5]
  | .throws s => .u64 6 :: strTokens s
  | .external s => .u64 7 :: strTokens s
  | .custom => [.u64 8]

/-- Decoder for one attribute's token encoding, used to prove that the
encoding is injective (prefix-unambiguous): decoding `a.tokens ++ r` always
recovers `(a, r)`. -/
def attrDecode : List HashToken → Option (Attribute × List HashToken)
  | .u64 0 :: r => some (.byRef, r)
  | .u64 1 :: r => some (.enum, r)
  | .u64 2 :: r => some (.error, r)
  | .u64 3 :: .str s :: .u8 255 :: r => some (.name s, r)
  | .u64 4 :: .u64 0 :: r => some (.selfType .byArc, r)
  | .u64 5 :: r => some (.threadsafe, r)
  | .u64 6 :: .str s :: .u8 255 :: r => some (.throws s, r)
  | .u64 7 :: .str s :: .u8 255 :: r => some (.external s, r)
  | .u64 8 :: r => some (.custom, r)
  | _ => none

/-- Derived `Hash` for the `FunctionAttributes` newtype. -/
def FunctionAttributes.tokens (a : FunctionAttributes) : List HashToken :=
  listTokens Attribute.tokens a.attrs

/-- Derived `Hash` for the `MethodAttributes` newtype. -/
def MethodAttributes.tokens (a : MethodAttributes) : List HashToken :=
  listTokens Attribute.tokens a.attrs

/-- Derived `Hash` for the `ConstructorAttributes` newtype. -/
def ConstructorAttributes.tokens (a : ConstructorAttributes) : List HashToken :=
  listTokens Attribute.tokens a.attrs

/-- Derived `Hash` for `Argument` from `function.rs` (field order). -/
def Argument.tokens (a : Argument) : List HashToken :=
  strTokens a.name ++ a.type_.tokens ++ boolTokens a.by_ref ++
    boolTokens a.optional ++ optionTokens Literal.tokens a.default

/-- Derived `Hash` for `Field` from `record.rs` (field order). -/
def Field.tokens (f : Field) : List HashToken :=
  strTokens f.name ++ f.type_.tokens ++ boolTokens f.required ++
    optionTokens Literal.tokens f.default

/-- Derived `Hash` for `Record` from `record.rs`. -/
def Record.tokens (r : Record) : List HashToken :=
  strTokens r.name ++ listTokens Field.tokens r.fields

/-- Derived `Hash` for `Variant` from `enum_.rs`. -/
def Variant.tokens (v : Variant) : List HashToken :=
  strTokens v.name ++ listTokens Field.tokens v.fields

/-- Derived `Hash` for `Enum` from `enum_.rs` (`name`, `variants`, `flat`). -/
def Enum.tokens (e : Enum) : List HashToken :=
  strTokens e.name ++ listTokens Variant.tokens e.variants ++ boolTokens e.flat

/-- Modelled from the spec: `Hash` for the error declaration (name and
variants, no derived FFI data). -/
def UError.tokens (e : UError) : List HashToken :=
  strTokens e.name ++ listTokens Variant.tokens e.variants

/-- Hand-written `impl Hash for Function` from `function.rs`: `name`,
`arguments`, `return_type`, `attributes` — and explicitly not `ffi_func`. -/
def Function.tokens (f : Function) : List HashToken :=
  strTokens f.name ++ listTokens Argument.tokens f.arguments ++
    optionTokens UType.tokens f.return_type ++ f.attributes.tokens

/-- Hand-written `impl Hash for Constructor` from `object.rs`: `name`,
`arguments`, `attributes` — not `ffi_func`. -/
def Constructor.tokens (c : Constructor) : List HashToken :=
  strTokens c.name ++ listTokens Argument.tokens c.arguments ++
    c.attributes.tokens

/-- Hand-written `impl Hash for Method` from `object.rs`: `name`,
`object_name`, `arguments`, `return_type`, `attributes` — not `ffi_func`. -/
def Method.tokens (m : Method) : List HashToken :=
  strTokens m.name ++ strTokens m.object_name ++
    listTokens Argument.tokens m.arguments ++
    optionTokens UType.tokens m.return_type ++ m.attributes.tokens

/-- Hand-written `impl Hash for Object` from `object.rs`: `name`,
`constructors`, `methods` — not `ffi_func_free` and not
`uses_deprecated_threadsafe_attribute`. -/
def Object.tokens (o : Object) : List HashToken :=
  strTokens o.name ++ listTokens Constructor.tokens o.constructors ++
    listTokens Method.tokens o.methods

/-- Hand-written `impl Hash for CallbackInterface` from `callbacks.rs`:
`name`, `methods` — not `ffi_init_callback`. -/
def CallbackInterface.tokens (cb : CallbackInterface) : List HashToken :=
  strTokens cb.name ++ listTokens Method.tokens cb.methods

/-- Hand-written `impl Hash for ComponentInterface` from `mod.rs`:
`uniffi_version`, `namespace`, `enums`, `records`, `functions`, `objects`,
`callback_interfaces`, `errors` — `types` is skipped. -/
def ComponentInterface.tokens (ci : ComponentInterface) : List HashToken :=
  strTokens ci.uniffi_version ++ strTokens ci.namespace_ ++
    listTokens Enum.tokens ci.enums ++ listTokens Record.tokens ci.records ++
    listTokens Function.tokens ci.functions ++
    listTokens Object.tokens ci.objects ++
    listTokens CallbackInterface.tokens ci.callback_interfaces ++
    listTokens UError.tokens ci.errors

/-! ## Checksum, namespace and FFI derivation (`mod.rs`) -/

/-- `ComponentInterface::checksum` from `mod.rs`: feed the interface's `Hash`
into the hasher and take `finish()`. -/
def ComponentInterface.checksum (h : Hasher) (ci : ComponentInterface) : Nat :=
  h ci.tokens

/-- The lowercase hex digit for a nibble, as produced by Rust `{:x}`. -/
def hexDigitChar (n : Nat) : Char :=
  if n < 10 then Char.ofNat (48 + n) else Char.ofNat (87 + n)

/-- Rendering of a `u16` by the Rust `{:x}` format specifier: minimal-length
lowercase hexadecimal, no zero padding (`0` renders as `"0"`).  The argument
is first reduced mod 2^16, matching the source's `as u16` cast. -/
def hexU16 (n : Nat) : String :=
  let m := n % 65536
  let d3 := m / 4096
  let d2 := m / 256 % 16
  let d1 := m / 16 % 16
  let d0 := m % 16
  if d3 ≠ 0 then
    String.mk [hexDigitChar d3, hexDigitChar d2, hexDigitChar d1, hexDigitChar d0]
  else if d2 ≠ 0 then
    String.mk [hexDigitChar d2, hexDigitChar d1, hexDigitChar d0]
  else if d1 ≠ 0 then
    String.mk [hexDigitChar d1, hexDigitChar d0]
  else
    String.mk [hexDigitChar d0]

/-- `ComponentInterface::ffi_namespace` from `mod.rs`:
`format!("{}_{:x}", namespace, (checksum & 0xFFFF) as u16)`. -/
def ComponentInterface.ffi_namespace (h : Hasher) (ci : ComponentInterface) :
    String :=
  ci.namespace_ ++ "_" ++ hexU16 (ci.checksum h)

/-- `ComponentInterface::ffi_rustbuffer_alloc` from `mod.rs`. -/
def ComponentInterface.ffi_rustbuffer_alloc (h : Hasher)
    (ci : ComponentInterface) : FFIFunction :=
  { name := "ffi_" ++ ci.ffi_namespace h ++ "_rustbuffer_alloc"
    arguments := [{ name := "size", type_ := .int32 }]
    return_type := some .rustBuffer }

/-- `ComponentInterface::ffi_rustbuffer_from_bytes` from `mod.rs`. -/
def ComponentInterface.ffi_rustbuffer_from_bytes (h : Hasher)
    (ci : ComponentInterface) : FFIFunction :=
  { name := "ffi_" ++ ci.ffi_namespace h ++ "_rustbuffer_from_bytes"
    arguments := [{ name := "bytes", type_ := .foreignBytes }]
    return_type := some .rustBuffer }

/-- `ComponentInterface::ffi_rustbuffer_free` from `mod.rs`. -/
def ComponentInterface.ffi_rustbuffer_free (h : Hasher)
    (ci : ComponentInterface) : FFIFunction :=
  { name := "ffi_" ++ ci.ffi_namespace h ++ "_rustbuffer_free"
    arguments := [{ name := "buf", type_ := .rustBuffer }]
    return_type := none }

/-- `ComponentInterface::ffi_rustbuffer_reserve` from `mod.rs`. -/
def ComponentInterface.ffi_rustbuffer_reserve (h : Hasher)
    (ci : ComponentInterface) : FFIFunction :=
  { name := "ffi_" ++ ci.ffi_namespace h ++ "_rustbuffer_reserve"
    arguments := [{ name := "buf", type_ := .rustBuffer },
                  { name := "additional", type_ := .int32 }]
    return_type := some .rustBuffer }

/-- `ComponentInterface::iter_user_ffi_function_definitions` from `mod.rs`:
object descriptors, then callback init descriptors, then function
descriptors. -/
def ComponentInterface.iter_user_ffi_function_definitions
    (ci : ComponentInterface) : List FFIFunction :=
  ci.objects.flatMap Object.iter_ffi_function_definitions ++
    ci.callback_interfaces.map CallbackInterface.ffi_init_callback ++
    ci.functions.map Function.ffi_func

/-- `ComponentInterface::iter_rust_buffer_ffi_function_definitions` from
`mod.rs`: the four byte-buffer built-ins. -/
def ComponentInterface.iter_rust_buffer_ffi_function_definitions (h : Hasher)
    (ci : ComponentInterface) : List FFIFunction :=
  [ci.ffi_rustbuffer_alloc h, ci.ffi_rustbuffer_from_bytes h,
   ci.ffi_rustbuffer_free h, ci.ffi_rustbuffer_reserve h]

/-- `ComponentInterface::iter_ffi_function_definitions` from `mod.rs`: user
descriptors followed by the four byte-buffer built-ins. -/
def ComponentInterface.iter_ffi_function_definitions (h : Hasher)
    (ci : ComponentInterface) : List FFIFunction :=
  ci.iter_user_ffi_function_definitions ++
    ci.iter_rust_buffer_ffi_function_definitions h

/-- The loop body of `ComponentInterface::derive_ffi_funcs` from `mod.rs`:
overwrite the derived descriptors of every function, object and callback
interface using a given namespace prefix. -/
def ComponentInterface.derivePrefixed (ci_pref : String)
    (ci : ComponentInterface) : ComponentInterface :=
  { ci with
      functions := ci.functions.map (Function.derive_ffi_func ci_pref)
      objects := ci.objects.map (Object.derive_ffi_funcs ci_pref)
      callback_interfaces :=
        ci.callback_interfaces.map (CallbackInterface.derive_ffi_funcs ci_pref) }

/-- `ComponentInterface::derive_ffi_funcs` from `mod.rs`: compute the
namespace prefix once (`let ci_prefix = self.ffi_namespace()`), then derive
every descriptor from it. -/
def ComponentInterface.derive_ffi_funcs (h : Hasher) (ci : ComponentInterface) :
    ComponentInterface :=
  ci.derivePrefixed (ci.ffi_namespace h)

/-! ## Building and checking (`mod.rs`, `lib.rs`, `macro_metadata/ci.rs`) -/

/-- Errors raised by `ComponentInterface::add_function_definition` in
`mod.rs` (`bail!("duplicate function definition: ...")` and
`bail!("Conflicting type definition for ...")`), with the offending name. -/
inductive AddFunctionError where
  | duplicateFunction (nm : String)
  | conflictingType (nm : String)
deriving DecidableEq

/-- `ComponentInterface::add_function_definition` from `mod.rs`: reject a
function whose name is already used by a function, then one whose name is
bound as a type; otherwise push it. -/
def ComponentInterface.add_function_definition (ci : ComponentInterface)
    (defn : Function) : Except AddFunctionError ComponentInterface :=
  if ci.functions.any fun f => f.name == defn.name then
    .error (.duplicateFunction defn.name)
  else if (ci.types.get_type_definition defn.name).isSome then
    .error (.conflictingType defn.name)
  else
    .ok { ci with functions := ci.functions ++ [defn] }

/-- Errors raised by `ComponentInterface::check_consistency` in `mod.rs`. -/
inductive ConsistencyError where
  | missingNamespace
  | variantShadowsType (nm : String)
deriving DecidableEq

/-- `ComponentInterface::check_consistency` from `mod.rs`: the namespace must
be non-empty and no enum variant name may shadow a type name. -/
def ComponentInterface.check_consistency (ci : ComponentInterface) :
    Except ConsistencyError Unit :=
  if ci.namespace_ = "" then
    .error .missingNamespace
  else
    match ci.enums.findSome? (fun e =>
        e.variants.find? fun v =>
          (ci.types.get_type_definition v.name).isSome) with
    | some v => .error (.variantShadowsType v.name)
    | none => .ok ()

/-- The finalization passes a build pipeline runs on a populated
`ComponentInterface`. -/
inductive Phase where
  | resolveTypes
  | checkConsistency
  | deriveFfiFuncs
deriving DecidableEq

/-- The finalization tail of `parse_iface` in `lib.rs`: after all
declarations are added, `check_consistency()?` then `derive_ffi_funcs()?`.
Returns the result together with the trace of passes invoked, in order. -/
def parseIfaceFinalize (h : Hasher) (ci : ComponentInterface) :
    Except ConsistencyError ComponentInterface × List Phase :=
  match ci.check_consistency with
  | .error e => (.error e, [.checkConsistency])
  | .ok _ => (.ok (ci.derive_ffi_funcs h), [.checkConsistency, .deriveFfiFuncs])

/-- The finalization tail of `add_to_ci` in `macro_metadata/ci.rs`: after the
metadata items are added, `resolve_types()?` then `derive_ffi_funcs()?` then
`check_consistency()?`.  `resolve_types` is not among the sources and is
modelled from the spec as a pass that does not change the model; it is traced
for its position only.  Returns the result with the trace of passes. -/
def addToCiFinalize (h : Hasher) (ci : ComponentInterface) :
    Except ConsistencyError ComponentInterface × List Phase :=
  let ci' := ci.derive_ffi_funcs h
  match ci'.check_consistency with
  | .error e =>
      (.error e, [.resolveTypes, .deriveFfiFuncs, .checkConsistency])
  | .ok _ =>
      (.ok ci', [.resolveTypes, .deriveFfiFuncs, .checkConsistency])

/-- Whether, in a trace of passes, the consistency check precedes FFI
derivation whenever the latter occurs. -/
def checkBeforeDerive (tr : List Phase) : Bool :=
  match tr.findIdx? (· == Phase.deriveFfiFuncs) with
  | none => true
  | some i =>
      match tr.findIdx? (· == Phase.checkConsistency) with
      | none => false
      | some j => j < i

/-! ## Recursive type enumeration (`RecursiveTypeIterator` in `mod.rs`) -/

/-- The declaration name of a named user type, `none` otherwise.  These are
exactly the five cases `add_pending_type` matches on. -/
def pendingName : UType → Option String
  | .record nm => some nm
  | .enum nm => some nm
  | .error nm => some nm
  | .object nm => some nm
  | .callbackInterface nm => some nm
  | _ => none

/-- The lookup performed by `advance_to_next_type` in `mod.rs`: resolve a
named user type to the `iter_types` of its declaration, `none` when the
declaration is absent or the type is not a named user type. -/
def expandType (ci : ComponentInterface) : UType → Option (List UType)
  | .record nm => (ci.get_record_definition nm).map Record.iter_types
  | .enum nm => (ci.get_enum_definition nm).map Enum.iter_types
  | .error nm => (ci.get_error_definition nm).map UError.iter_types
  | .object nm => (ci.get_object_definition nm).map Object.iter_types
  | .callbackInterface nm =>
      (ci.get_callback_interface_definition nm).map CallbackInterface.iter_types
  | _ => none

/-- The state of `RecursiveTypeIterator`: the currently-yielding iterator,
the seen-set of declaration names, and the pending queue (LIFO, like the
source's `Vec::push`/`Vec::pop`). -/
structure IterState where
  current : List UType
  seen : List String
  pending : List UType
deriving DecidableEq

/-- `RecursiveTypeIterator::add_pending_type` from `mod.rs`: queue a named
user type, and mark its name as seen, unless the name was already seen. -/
def addPending (st : IterState) (t : UType) : IterState :=
  match pendingName t with
  | some nm =>
      if nm ∈ st.seen then st
      else { st with pending := t :: st.pending, seen := nm :: st.seen }
  | none => st

/-- Fuelled driver of `RecursiveTypeIterator::next` from `mod.rs`: returns
the remaining yielded types together with the names of the declarations
recursed into (in expansion order), or `none` if the fuel runs out.  A
sufficient fuel is computed by `iterFuel` below, and `runFuel_complete`
proves that it never runs out. -/
def runFuel : Nat → ComponentInterface → IterState →
    Option (List UType × List String)
  | 0, _, _ => none
  | fuel + 1, ci, st =>
    match st.current with
    | t :: rest =>
        match runFuel fuel ci (addPending { st with current := rest } t) with
        | some (out, ex) => some (t :: out, ex)
        | none => none
    | [] =>
        match st.pending with
        | [] => some ([], [])
        | p :: ps =>
            match expandType ci p with
            | some ts =>
                match runFuel fuel ci { current := ts, seen := st.seen, pending := ps } with
                | some (out, ex) => some (out, (pendingName p).getD "" :: ex)
                | none => none
            | none => runFuel fuel ci { current := [], seen := st.seen, pending := ps }

/-- The number of types an expansion of `t` would put on the current
iterator (0 when `t` does not expand). -/
def expSize (ci : ComponentInterface) (t : UType) : Nat :=
  ((expandType ci t).getD []).length

/-- Weight of one pending entry in the termination measure. -/
def pendWeight (ci : ComponentInterface) (t : UType) : Nat :=
  1 + 2 * expSize ci t

/-- Weight of a declaration name in the termination measure: enough to pay
for whichever of the five expansions the name might undergo. -/
def nameWeight (ci : ComponentInterface) (nm : String) : Nat :=
  1 + 2 * (expSize ci (.record nm) + expSize ci (.enum nm) +
    expSize ci (.error nm) + expSize ci (.object nm) +
    expSize ci (.callbackInterface nm))

/-- All declaration names of the interface (with duplicates). -/
def declNames (ci : ComponentInterface) : List String :=
  ci.records.map Record.name ++ ci.enums.map Enum.name ++
    ci.errors.map UError.name ++ ci.objects.map Object.name ++
    ci.callback_interfaces.map CallbackInterface.name

/-- Total weight of the names of a list that are not in the seen-set. -/
def budget (w : String → Nat) (seen : List String) : List String → Nat
  | [] => 0
  | y :: ys => (if y ∈ seen then 0 else w y) + budget w seen ys

/-- Remaining budget for declaration names that are not yet seen. -/
def seenBudget (ci : ComponentInterface) (seen : List String) : Nat :=
  budget (nameWeight ci) seen (declNames ci)

/-- Termination measure of the iterator: strictly decreases at every
recursive call of the driver. -/
def iterMeasure (ci : ComponentInterface) (st : IterState) : Nat :=
  2 * st.current.length + (st.pending.map (pendWeight ci)).sum +
    seenBudget ci st.seen

/-- The initial iterator state over a given item
(`RecursiveTypeIterator::new`). -/
def initIterState (item : UType) : IterState :=
  { current := item.iter_types, seen := [], pending := [] }

/-- A fuel amount sufficient for the whole iteration. -/
def iterFuel (ci : ComponentInterface) (item : UType) : Nat :=
  iterMeasure ci (initIterState item) + 1

/-- `ComponentInterface::iter_types_in_item` from `mod.rs`, together with the
trace of declaration names recursed into: the full run of the
`RecursiveTypeIterator` over the item. -/
def ComponentInterface.iter_types_in_item_trace (ci : ComponentInterface)
    (item : UType) : Option (List UType × List String) :=
  runFuel (iterFuel ci item) ci (initIterState item)

/-- Every named user type mentioned in some declaration of the interface
(the types that expansions can put on the current iterator). -/
def allMentioned (ci : ComponentInterface) : List UType :=
  ci.records.flatMap Record.iter_types ++ ci.enums.flatMap Enum.iter_types ++
    ci.errors.flatMap UError.iter_types ++
    ci.objects.flatMap Object.iter_types ++
    ci.callback_interfaces.flatMap CallbackInterface.iter_types

/-- Name-kind consistency for one name: every mentioned type carrying the
name `nm` resolves (its declaration exists).  This is spec invariant 1
(every type-name reference resolves), restricted to `nm`. -/
def mentionsOK (ci : ComponentInterface) (nm : String) : Prop :=
  ∀ u ∈ allMentioned ci, pendingName u = some nm → (expandType ci u).isSome

/-! ## Concrete interfaces used for witnesses and counterexamples -/

/-- The all-zero hasher, a legitimate instance of the `Hasher` abstraction
used to exhibit behaviour at small checksum values. -/
def zeroHasher : Hasher := fun _ => 0

/-- The empty type universe. -/
def emptyTypes : TypeUniverse := { defs := [] }

/-- The scenario interface of the spec: namespace `example`, one function
`hello() -> string`, nothing else (pre-derivation state). -/
def helloFn : Function :=
  { name := "hello", arguments := [], return_type := some .string
    ffi_func := FFIFunction.dflt, attributes := { attrs := [] } }

/-- The `example` interface holding only `helloFn`. -/
def exampleCI : ComponentInterface :=
  { uniffi_version := "0.16.0", types := emptyTypes, namespace_ := "example"
    enums := [], records := [], functions := [helloFn], objects := []
    callback_interfaces := [], errors := [] }

/-- An interface with the deprecated thread-safety marker of every object
set to a given value (all other data unchanged). -/
def setThreadsafeAll (b : Bool) (ci : ComponentInterface) : ComponentInterface :=
  { ci with objects := ci.objects.map fun o =>
      { o with uses_deprecated_threadsafe_attribute := b } }

/-- An interface with its function list replaced (all other data unchanged). -/
def withFunctions (fns : List Function) (ci : ComponentInterface) :
    ComponentInterface :=
  { ci with functions := fns }

/-- A function with its attribute set replaced (all other data unchanged). -/
def setAttrs (a' : FunctionAttributes) (f : Function) : Function :=
  { f with attributes := a' }

/-- The FFI descriptor the `hello` scenario derives for the user function,
with its symbol name written as namespace prefix + `_` + function name. -/
def helloUserFFIraw (h : Hasher) : FFIFunction :=
  { name := exampleCI.ffi_namespace h ++ "_" ++ "hello"
    arguments := []
    return_type := some FFIType.rustBuffer }

/-- The same descriptor with its symbol name re-associated to expose the
`example_` prefix, the hex segment, and the `_hello` suffix. -/
def helloUserFFI (h : Hasher) : FFIFunction :=
  { name := "example_" ++ hexU16 (ComponentInterface.checksum h exampleCI) ++
      "_hello"
    arguments := []
    return_type := some FFIType.rustBuffer }

/-- The scenario descriptor at the all-zero hasher. -/
def helloUserFFIzero : FFIFunction :=
  { name := "example_0_hello"
    arguments := []
    return_type := some FFIType.rustBuffer }

/-- An object named `Obj` with no members and the deprecated thread-safety
marker cleared. -/
def plainObj : Object :=
  { name := "Obj", constructors := [], methods := []
    ffi_func_free := FFIFunction.dflt
    uses_deprecated_threadsafe_attribute := false }

/-- An interface holding `plainObj` with the thread-safety marker cleared. -/
def objCIfalse : ComponentInterface :=
  { uniffi_version := "0.16.0", types := emptyTypes, namespace_ := "example"
    enums := [], records := [], functions := [], objects := [plainObj]
    callback_interfaces := [], errors := [] }

/-- The same interface with the thread-safety marker set on the object. -/
def objCItrue : ComponentInterface :=
  { objCIfalse with
      objects := [{ plainObj with uses_deprecated_threadsafe_attribute := true }] }

/-- Record `A` with one field of type record `B` (mutual recursion half). -/
def recA : Record :=
  { name := "A"
    fields := [{ name := "b", type_ := .record "B", required := true,
                 default := none }] }

/-- Record `B` with one field of type record `A` (mutual recursion half). -/
def recB : Record :=
  { name := "B"
    fields := [{ name := "a", type_ := .record "A", required := true,
                 default := none }] }

/-- An interface holding the two mutually recursive records `A` and `B`. -/
def mutualCI : ComponentInterface :=
  { uniffi_version := "0.16.0", types := emptyTypes, namespace_ := "example"
    enums := [], records := [recA, recB], functions := [], objects := []
    callback_interfaces := [], errors := [] }

/-- A function named `compute`, used by the duplicate-definition witness. -/
def computeFn : Function :=
  { name := "compute", arguments := [], return_type := none
    ffi_func := FFIFunction.dflt, attributes := { attrs := [] } }

/-- The interface state after `computeFn` is successfully added to the empty
`example` interface. -/
def exampleCIwithCompute : ComponentInterface :=
  { uniffi_version := "0.16.0", types := emptyTypes, namespace_ := "example"
    enums := [], records := [], functions := [computeFn], objects := []
    callback_interfaces := [], errors := [] }

/-- The empty `example` interface (no declarations at all). -/
def emptyExampleCI : ComponentInterface :=
  { uniffi_version := "0.16.0", types := emptyTypes, namespace_ := "example"
    enums := [], records := [], functions := [], objects := []
    callback_interfaces := [], errors := [] }

/-! ## General lemmas about token streams -/

theorem concatTokens_append (f : α → List HashToken) (l1 l2 : List α) :
    concatTokens f (l1 ++ l2) = concatTokens f l1 ++ concatTokens f l2 := by
  induction l1 with
  | nil => simp [concatTokens]
  | cons x xs ih => simp [concatTokens, ih]

theorem concatTokens_map (f : β → List HashToken) (g : α → β) (l : List α) :
    concatTokens f (l.map g) = concatTokens (fun x => f (g x)) l := by
  induction l with
  | nil => rfl
  | cons x xs ih => simp [concatTokens, ih]

theorem listTokens_map (f : β → List HashToken) (g : α → β) (l : List α) :
    listTokens f (l.map g) = listTokens (fun x => f (g x)) l := by
  simp [listTokens, concatTokens_map]

theorem listTokens_append (f : α → List HashToken) (l1 l2 : List α) :
    listTokens f (l1 ++ l2) =
      HashToken.usize (l1.length + l2.length) ::
        (concatTokens f l1 ++ concatTokens f l2) := by
  simp [listTokens, concatTokens_append]

/-! ## Checksum is blind to derived FFI data (helper lemmas) -/

theorem fnTokens_derive (p : String) (f : Function) :
    (f.derive_ffi_func p).tokens = f.tokens := rfl

theorem consTokens_derive (p o : String) (c : Constructor) :
    (c.derive_ffi_func p o).tokens = c.tokens := rfl

theorem methTokens_derive (p o : String) (m : Method) :
    (m.derive_ffi_func p o).tokens = m.tokens := rfl

theorem objTokens_derive (p : String) (o : Object) :
    (o.derive_ffi_funcs p).tokens = o.tokens := by
  simp [Object.tokens, Object.derive_ffi_funcs, listTokens_map,
    consTokens_derive, methTokens_derive]

theorem cbTokens_derive (p : String) (cb : CallbackInterface) :
    (cb.derive_ffi_funcs p).tokens = cb.tokens := rfl

theorem ciTokens_derivePrefixed (p : String)
    (ci : ComponentInterface) :
    (ci.derivePrefixed p).tokens = ci.tokens := by
  simp [ComponentInterface.tokens, ComponentInterface.derivePrefixed,
    listTokens_map, fnTokens_derive, objTokens_derive,
    cbTokens_derive]

theorem ciTokens_derive (h : Hasher) (ci : ComponentInterface) :
    (ci.derive_ffi_funcs h).tokens = ci.tokens :=
  ciTokens_derivePrefixed _ ci

theorem ComponentInterface.checksum_derive (h : Hasher)
    (ci : ComponentInterface) :
    (ci.derive_ffi_funcs h).checksum h = ci.checksum h := by
  simp [ComponentInterface.checksum, ciTokens_derive]

theorem ComponentInterface.ffi_namespace_derive (h : Hasher)
    (ci : ComponentInterface) :
    (ci.derive_ffi_funcs h).ffi_namespace h = ci.ffi_namespace h := by
  show (ci.derive_ffi_funcs h).namespace_ ++ "_" ++
      hexU16 ((ci.derive_ffi_funcs h).checksum h) =
    ci.namespace_ ++ "_" ++ hexU16 (ci.checksum h)
  rw [ComponentInterface.checksum_derive]
  rfl

/-! ## Claim C1 -/

/-- C1: deriving the low-level FFI descriptors never changes the checksum —
the hash input (the exact `Hasher::write` stream) of a `ComponentInterface`
is unchanged by `derive_ffi_funcs`, because none of the derived fields
(`ffi_func` of functions/constructors/methods, `ffi_func_free` of objects,
`ffi_init_callback` of callback interfaces) is fed to the hasher; hence
`checksum()` is identical before and after, for every hasher. -/
theorem c1_derive_ffi_funcs_preserves_checksum (h : Hasher)
    (ci : ComponentInterface) :
    (ci.derive_ffi_funcs h).tokens = ci.tokens ∧
    (ci.derive_ffi_funcs h).checksum h = ci.checksum h :=
  ⟨ciTokens_derive h ci, ComponentInterface.checksum_derive h ci⟩

/-! ## Claim C6 -/

/-- C6: FFI derivation is idempotent — a second `derive_ffi_funcs` run on an
already-derived `ComponentInterface` recomputes the same namespace prefix
(the checksum ignores the fields overwritten by the first run) and
overwrites every derived descriptor with the identical value, so the whole
interface (names, argument lists and return types included) is unchanged. -/
theorem Object.derive_idem (p : String) (o : Object) :
    (o.derive_ffi_funcs p).derive_ffi_funcs p = o.derive_ffi_funcs p := by
  have hc : ∀ c : Constructor, (c.derive_ffi_func p o.name).derive_ffi_func
      p o.name = c.derive_ffi_func p o.name := fun _ => rfl
  have hm : ∀ m : Method, (m.derive_ffi_func p o.name).derive_ffi_func
      p o.name = m.derive_ffi_func p o.name := fun _ => rfl
  simp [Object.derive_ffi_funcs, List.map_map, hc, hm]

theorem ComponentInterface.derivePrefixed_idem (p : String)
    (ci : ComponentInterface) :
    (ci.derivePrefixed p).derivePrefixed p = ci.derivePrefixed p := by
  have hf : ∀ f : Function, (f.derive_ffi_func p).derive_ffi_func p =
      f.derive_ffi_func p := fun _ => rfl
  have hcb : ∀ cb : CallbackInterface, (cb.derive_ffi_funcs p).derive_ffi_funcs
      p = cb.derive_ffi_funcs p := fun _ => rfl
  simp [ComponentInterface.derivePrefixed, List.map_map, hf, hcb,
    Object.derive_idem]

theorem c6_derive_ffi_funcs_idempotent (h : Hasher) (ci : ComponentInterface) :
    (ci.derive_ffi_funcs h).derive_ffi_funcs h = ci.derive_ffi_funcs h := by
  show (ci.derive_ffi_funcs h).derivePrefixed
      ((ci.derive_ffi_funcs h).ffi_namespace h) = ci.derive_ffi_funcs h
  rw [ComponentInterface.ffi_namespace_derive]
  exact ComponentInterface.derivePrefixed_idem _ ci

/-! ## Claim C8 -/

/-- C8: an enum built by the (spec-modelled) builder has `is_flat() = true`
exactly when no variant has any field (`has_fields` is false throughout),
and rebuilding it with a field added to any one variant makes `is_flat()`
return false. -/
theorem c8_enum_is_flat (nm : String) (vs : List Variant)
    (pre post : List Variant) (v : Variant) (fld : Field) :
    ((mkEnum nm vs).is_flat = true ↔ ∀ w ∈ vs, w.has_fields = false) ∧
    (mkEnum nm (pre ++ { v with fields := v.fields ++ [fld] } :: post)).is_flat
      = false := by
  constructor
  · simp [mkEnum, Enum.is_flat, Variant.has_fields, List.all_eq_true]
  · simp [mkEnum, Enum.is_flat, List.all_append]

/-! ## Claim C10 -/

/-- C10: `Object::get_method` is partial — it returns a method only when
exactly one method carries the requested name, and otherwise panics (the
`error` case) with the match count and name; the count is never 1 in the
panic case, covering both zero and several matches. -/
theorem c10_get_method_panics (o : Object) (nm : String) :
    ((∃ m, o.get_method nm = .ok m) ↔
      (o.methods.filter fun m => m.name == nm).length = 1) ∧
    (∀ m, o.get_method nm = .ok m →
      o.methods.filter (fun m' => m'.name == nm) = [m]) ∧
    (∀ p, o.get_method nm = .error p →
      p.1 = (o.methods.filter fun m => m.name == nm).length ∧ p.1 ≠ 1 ∧
        p.2 = nm) := by
  rcases hms : o.methods.filter fun m => m.name == nm with _ | ⟨m, _ | ⟨m2, tl⟩⟩
  · refine ⟨?_, ?_, ?_⟩
    · simp [Object.get_method, hms]
    · intro m hm
      simp [Object.get_method, hms] at hm
    · intro p hp
      simp [Object.get_method, hms] at hp
      simp [hms, ← hp]
  · refine ⟨?_, ?_, ?_⟩
    · simp [Object.get_method, hms]
    · intro m' hm'
      simp [Object.get_method, hms] at hm'
      simp [hms, hm']
    · intro p hp
      simp [Object.get_method, hms] at hp
  · refine ⟨?_, ?_, ?_⟩
    · simp [Object.get_method, hms]
    · intro m' hm'
      simp [Object.get_method, hms] at hm'
    · intro p hp
      simp only [Object.get_method, hms] at hp
      have hp' := (Except.error.inj hp)
      subst hp'
      refine ⟨by simp [hms], by simp, rfl⟩

/-- Witness for C10: looking up a method name on an object with no methods
panics with count 0 and the requested name. -/
theorem c10_get_method_panics_witness :
    ((0 : Nat), "m").1 = (plainObj.methods.filter fun m => m.name == "m").length
      ∧ ((0 : Nat), "m").1 ≠ 1 ∧ ((0 : Nat), "m").2 = "m" :=
  (c10_get_method_panics plainObj "m").2.2 (0, "m") rfl

/-! ## Claim C7 -/

/-- C7: `add_function_definition` fails exactly when a function of the same
name was already added or the name is bound as a top-level type; the error
always carries the offending function's name (as a duplicate-function or
conflicting-type error); on success the new function is appended after the
previously added ones and every other part of the interface is unchanged. -/
theorem c7_add_function_definition (ci : ComponentInterface) (defn : Function) :
    ((∃ e, ci.add_function_definition defn = .error e) ↔
      ((∃ f ∈ ci.functions, f.name = defn.name) ∨
        (ci.types.get_type_definition defn.name).isSome = true)) ∧
    (∀ e, ci.add_function_definition defn = .error e →
      e = .duplicateFunction defn.name ∨ e = .conflictingType defn.name) ∧
    (∀ ci', ci.add_function_definition defn = .ok ci' →
      ci'.functions = ci.functions ++ [defn] ∧ ci'.enums = ci.enums ∧
      ci'.records = ci.records ∧ ci'.objects = ci.objects ∧
      ci'.callback_interfaces = ci.callback_interfaces ∧
      ci'.errors = ci.errors ∧ ci'.namespace_ = ci.namespace_ ∧
      ci'.types = ci.types ∧ ci'.uniffi_version = ci.uniffi_version) := by
  by_cases h1 : ci.functions.any fun f => f.name == defn.name
  · refine ⟨?_, ?_, ?_⟩
    · simp only [ComponentInterface.add_function_definition, h1, if_true]
      simp only [List.any_eq_true, beq_iff_eq] at h1
      simp [h1]
    · intro e he
      simp only [ComponentInterface.add_function_definition, h1, if_true] at he
      exact Or.inl (Except.error.inj he).symm
    · intro ci' hci'
      simp [ComponentInterface.add_function_definition, h1] at hci'
  · by_cases h2 : (ci.types.get_type_definition defn.name).isSome
    · refine ⟨?_, ?_, ?_⟩
      · simp only [ComponentInterface.add_function_definition, h1, if_false,
          h2, if_true, Bool.false_eq_true]
        simp [h2]
      · intro e he
        simp only [ComponentInterface.add_function_definition, h1,
          Bool.false_eq_true, if_false, h2, if_true] at he
        exact Or.inr (Except.error.inj he).symm
      · intro ci' hci'
        simp [ComponentInterface.add_function_definition, h1, h2] at hci'
    · refine ⟨?_, ?_, ?_⟩
      · constructor
        · rintro ⟨e, he⟩
          simp [ComponentInterface.add_function_definition, h1, h2] at he
        · rintro (⟨f, hf, hfe⟩ | hty)
          · exact absurd (List.any_eq_true.mpr ⟨f, hf, by simp [hfe]⟩) h1
          · exact absurd hty h2
      · intro e he
        simp [ComponentInterface.add_function_definition, h1, h2] at he
      · intro ci' hci'
        simp only [ComponentInterface.add_function_definition, h1,
          Bool.false_eq_true, if_false, h2] at hci'
        have := (Except.ok.inj hci').symm
        subst this
        simp

/-- Witness for C7: adding `compute` to the empty `example` interface
succeeds and appends it. -/
theorem c7_add_function_definition_witness :
    exampleCIwithCompute.functions = emptyExampleCI.functions ++ [computeFn] :=
  ((c7_add_function_definition emptyExampleCI computeFn).2.2
    exampleCIwithCompute rfl).1

/-! ## Claim C3 -/

/-- Counterexample to C3: the claim says every build pipeline invokes
`check_consistency` strictly before `derive_ffi_funcs`, but the
`add_to_ci` pipeline of `macro_metadata/ci.rs` derives the FFI descriptors
first and checks consistency last, as its pass trace shows on a concrete
interface. -/
theorem c3_pipeline_order_counterexample :
    checkBeforeDerive (addToCiFinalize zeroHasher emptyExampleCI).2 = false := by
  decide

/-- C3 as amended: in the `parse_iface` pipeline of `lib.rs` the consistency
check always precedes FFI derivation (derivation does not even run when the
check fails), but in the `add_to_ci` pipeline of `macro_metadata/ci.rs`
FFI derivation always precedes the consistency check, so a model violating a
global invariant still has its FFI descriptors derived there before being
rejected. -/
theorem c3_pipeline_order (h : Hasher) (ci : ComponentInterface) :
    checkBeforeDerive (parseIfaceFinalize h ci).2 = true ∧
    checkBeforeDerive (addToCiFinalize h ci).2 = false := by
  constructor
  · unfold parseIfaceFinalize
    cases hc : ci.check_consistency with
    | error e => rfl
    | ok u => rfl
  · simp only [addToCiFinalize]
    cases hc : (ci.derive_ffi_funcs h).check_consistency with
    | error e => rfl
    | ok u => rfl

/-! ## Claim C2 -/

theorem strLengthMk (cs : List Char) : (String.mk cs).length = cs.length := rfl

theorem hexU16_length_spec (n : Nat) :
    1 ≤ (hexU16 n).length ∧ (hexU16 n).length ≤ 4 ∧
    ((hexU16 n).length = 4 ↔ 4096 ≤ n % 65536) := by
  simp only [hexU16]
  split_ifs with h3 h2 h1
  · show 1 ≤ (4:Nat) ∧ (4:Nat) ≤ 4 ∧ ((4:Nat) = 4 ↔ 4096 ≤ n % 65536)
    omega
  · show 1 ≤ (3:Nat) ∧ (3:Nat) ≤ 4 ∧ ((3:Nat) = 4 ↔ 4096 ≤ n % 65536)
    omega
  · show 1 ≤ (2:Nat) ∧ (2:Nat) ≤ 4 ∧ ((2:Nat) = 4 ↔ 4096 ≤ n % 65536)
    omega
  · show 1 ≤ (1:Nat) ∧ (1:Nat) ≤ 4 ∧ ((1:Nat) = 4 ↔ 4096 ≤ n % 65536)
    omega

/-- Counterexample to C2: `ffi_namespace` formats the low 16 checksum bits
with `{:x}`, which does not zero-pad, so when those bits are below `0x1000`
(here: a hasher returning 0 on the concrete `example` interface) the hex part
has fewer than 4 characters and no 4-character-suffix decomposition exists. -/
theorem c2_hex_not_padded_counterexample :
    emptyExampleCI.namespace_ ≠ "" ∧
    emptyExampleCI.ffi_namespace zeroHasher = "example_0" ∧
    ¬ ∃ hex : String, hex.length = 4 ∧
      emptyExampleCI.ffi_namespace zeroHasher =
        emptyExampleCI.namespace_ ++ "_" ++ hex := by
  refine ⟨by decide, by decide, ?_⟩
  rintro ⟨hex, hlen, heq⟩
  rw [show emptyExampleCI.ffi_namespace zeroHasher = "example_0" from by decide]
    at heq
  have hlen9 := congrArg String.length heq
  rw [String.length_append, String.length_append, hlen] at hlen9
  have h9 : ("example_0" : String).length = 9 := rfl
  have h7 : (emptyExampleCI.namespace_).length = 7 := rfl
  have h1 : ("_" : String).length = 1 := rfl
  omega

/-- C2 as amended: for every hasher and interface, `ffi_namespace()` is the
namespace, an underscore, and the `{:x}` rendering of `checksum() & 0xFFFF`:
between 1 and 4 lowercase hex digits with no zero padding — exactly 4 digits
precisely when the low 16 bits of the checksum are at least `0x1000`. -/
theorem c2_ffi_namespace_format (h : Hasher) (ci : ComponentInterface) :
    ci.ffi_namespace h = ci.namespace_ ++ "_" ++ hexU16 (ci.checksum h) ∧
    1 ≤ (hexU16 (ci.checksum h)).length ∧
    (hexU16 (ci.checksum h)).length ≤ 4 ∧
    ((hexU16 (ci.checksum h)).length = 4 ↔ 4096 ≤ ci.checksum h % 65536) :=
  ⟨rfl, (hexU16_length_spec _).1, (hexU16_length_spec _).2.1,
    (hexU16_length_spec _).2.2⟩

/-! ## Claim C5 -/

/-- Counterexample to C5: on the `hello` scenario interface the FFI function
count is 5 as claimed, but the user function's symbol is not always
`example_` + 4 hex digits + `_hello`: a hasher returning a checksum with low
16 bits below `0x1000` (here 0) yields `example_0_hello`, whose middle part
has a single hex digit, and no 4-character decomposition exists. -/
theorem c5_scenario_counterexample :
    ((exampleCI.derive_ffi_funcs zeroHasher).iter_ffi_function_definitions
      zeroHasher).head? = some helloUserFFIzero ∧
    ¬ ∃ c4 : String, c4.length = 4 ∧
      helloUserFFIzero.name = "example_" ++ c4 ++ "_hello" := by
  refine ⟨by decide, ?_⟩
  rintro ⟨c4, hlen, heq⟩
  rw [show helloUserFFIzero.name = "example_0_hello" from rfl] at heq
  have hl := congrArg String.length heq
  rw [String.length_append, String.length_append, hlen] at hl
  have h15 : ("example_0_hello" : String).length = 15 := rfl
  have h8 : ("example_" : String).length = 8 := rfl
  have h6 : ("_hello" : String).length = 6 := rfl
  omega

/-- C5 as amended: for the scenario interface (namespace `example`, one
function `hello() -> string`, nothing else), the finalized interface exposes
exactly 5 FFI functions (the user function followed by the four byte-buffer
built-ins), and the user function's symbol is `example_`, then the unpadded
`{:x}` rendering of the low 16 checksum bits (1 to 4 lowercase hex digits,
4 exactly when those bits are at least `0x1000`), then `_hello`. -/
theorem c5_scenario (h : Hasher) :
    ((exampleCI.derive_ffi_funcs h).iter_ffi_function_definitions h).length = 5
      ∧
    ((exampleCI.derive_ffi_funcs h).iter_ffi_function_definitions h).head? =
      some (helloUserFFI h) ∧
    1 ≤ (hexU16 (exampleCI.checksum h)).length ∧
    (hexU16 (exampleCI.checksum h)).length ≤ 4 := by
  have hname : exampleCI.ffi_namespace h ++ "_" ++ "hello" =
      "example_" ++ hexU16 (exampleCI.checksum h) ++ "_hello" := by
    rw [String.append_assoc]
    rfl
  refine ⟨rfl, ?_, (hexU16_length_spec _).1, (hexU16_length_spec _).2.1⟩
  have hh : ((exampleCI.derive_ffi_funcs h).iter_ffi_function_definitions
      h).head? = some (helloUserFFIraw h) := rfl
  have hfi : helloUserFFIraw h = helloUserFFI h := by
    unfold helloUserFFIraw helloUserFFI
    rw [hname]
  rw [hh, hfi]

/-! ## Claim C9: the termination measure of the recursive type iterator -/

theorem addPending_eq (st : IterState) (t : UType) :
    addPending st t = st ∨
    ∃ nm, pendingName t = some nm ∧ ¬ nm ∈ st.seen ∧
      addPending st t = ⟨st.current, nm :: st.seen, t :: st.pending⟩ := by
  cases hpn : pendingName t with
  | none => exact Or.inl (by simp [addPending, hpn])
  | some nm =>
    by_cases hs : nm ∈ st.seen
    · exact Or.inl (by simp [addPending, hpn, hs])
    · exact Or.inr ⟨nm, rfl, hs, by simp [addPending, hpn, hs]⟩

theorem budget_cons_le (w : String → Nat) (x : String) (seen : List String) :
    ∀ l : List String, budget w (x :: seen) l ≤ budget w seen l := by
  intro l
  induction l with
  | nil => simp [budget]
  | cons y ys ih =>
    simp only [budget]
    have hhead : (if y ∈ x :: seen then 0 else w y) ≤
        (if y ∈ seen then 0 else w y) := by
      by_cases hy : y ∈ seen
      · simp [hy, List.mem_cons]
      · by_cases hxy : y = x
        · simp [hxy, hy]
        · simp [hy, hxy, List.mem_cons]
    omega

theorem budget_cons_mem (w : String → Nat) (x : String) (seen : List String)
    (hxs : ¬ x ∈ seen) :
    ∀ l : List String, x ∈ l →
    budget w (x :: seen) l + w x ≤ budget w seen l := by
  intro l
  induction l with
  | nil => intro hmem; simp at hmem
  | cons y ys ih =>
    intro hmem
    simp only [budget]
    by_cases hxy : y = x
    · subst hxy
      have hle := budget_cons_le w y seen ys
      have hz : (if y ∈ y :: seen then (0:Nat) else w y) = 0 :=
        if_pos (List.mem_cons_self y seen)
      have hz2 : (if y ∈ seen then (0:Nat) else w y) = w y := if_neg hxs
      omega
    · have hmem' : x ∈ ys := by
        rcases List.mem_cons.mp hmem with h | h
        · exact absurd h.symm hxy
        · exact h
      have hih := ih hmem'
      have hhead : (if y ∈ x :: seen then 0 else w y) =
          (if y ∈ seen then 0 else w y) := by
        by_cases hy : y ∈ seen
        · simp [hy, List.mem_cons]
        · simp [hy, hxy, List.mem_cons]
      omega

theorem budget_cons_not_mem (w : String → Nat) (x : String)
    (seen : List String) :
    ∀ l : List String, ¬ x ∈ l → budget w (x :: seen) l = budget w seen l := by
  intro l
  induction l with
  | nil => intro _; rfl
  | cons y ys ih =>
    intro hx
    have hxy : y ≠ x := fun h => hx (h ▸ List.mem_cons_self y ys)
    have hx' : ¬ x ∈ ys := fun h => hx (List.mem_cons_of_mem y h)
    simp only [budget, ih hx']
    have hhead : (if y ∈ x :: seen then 0 else w y) =
        (if y ∈ seen then 0 else w y) := by
      by_cases hy : y ∈ seen
      · simp [hy, List.mem_cons]
      · simp [hy, hxy, List.mem_cons]
    omega

theorem pendWeight_le_nameWeight (ci : ComponentInterface) (t : UType)
    (nm : String) (h : pendingName t = some nm) :
    pendWeight ci t ≤ nameWeight ci nm := by
  cases t <;> simp only [pendingName, Option.some.injEq] at h <;>
    (try exact Option.noConfusion h) <;> rw [← h] <;>
    simp only [pendWeight, nameWeight] <;> omega

theorem get_record_none (ci : ComponentInterface) (nm : String)
    (h : ¬ nm ∈ ci.records.map Record.name) :
    ci.get_record_definition nm = none := by
  unfold ComponentInterface.get_record_definition
  rw [List.find?_eq_none]
  intro r hr hbeq
  exact h (List.mem_map.mpr ⟨r, hr, beq_iff_eq.mp hbeq⟩)

theorem get_enum_none (ci : ComponentInterface) (nm : String)
    (h : ¬ nm ∈ ci.enums.map Enum.name) :
    ci.get_enum_definition nm = none := by
  unfold ComponentInterface.get_enum_definition
  rw [List.find?_eq_none]
  intro r hr hbeq
  exact h (List.mem_map.mpr ⟨r, hr, beq_iff_eq.mp hbeq⟩)

theorem get_error_none (ci : ComponentInterface) (nm : String)
    (h : ¬ nm ∈ ci.errors.map UError.name) :
    ci.get_error_definition nm = none := by
  unfold ComponentInterface.get_error_definition
  rw [List.find?_eq_none]
  intro r hr hbeq
  exact h (List.mem_map.mpr ⟨r, hr, beq_iff_eq.mp hbeq⟩)

theorem get_object_none (ci : ComponentInterface) (nm : String)
    (h : ¬ nm ∈ ci.objects.map Object.name) :
    ci.get_object_definition nm = none := by
  unfold ComponentInterface.get_object_definition
  rw [List.find?_eq_none]
  intro r hr hbeq
  exact h (List.mem_map.mpr ⟨r, hr, beq_iff_eq.mp hbeq⟩)

theorem get_callback_none (ci : ComponentInterface) (nm : String)
    (h : ¬ nm ∈ ci.callback_interfaces.map CallbackInterface.name) :
    ci.get_callback_interface_definition nm = none := by
  unfold ComponentInterface.get_callback_interface_definition
  rw [List.find?_eq_none]
  intro r hr hbeq
  exact h (List.mem_map.mpr ⟨r, hr, beq_iff_eq.mp hbeq⟩)

theorem expandType_none_of_not_declared (ci : ComponentInterface) (t : UType)
    (nm : String) (hpn : pendingName t = some nm)
    (hnd : ¬ nm ∈ declNames ci) : expandType ci t = none := by
  have hsplit : ¬ nm ∈ ci.records.map Record.name ∧
      ¬ nm ∈ ci.enums.map Enum.name ∧ ¬ nm ∈ ci.errors.map UError.name ∧
      ¬ nm ∈ ci.objects.map Object.name ∧
      ¬ nm ∈ ci.callback_interfaces.map CallbackInterface.name := by
    simp only [declNames, List.mem_append, not_or] at hnd
    tauto
  cases t <;> simp only [pendingName, Option.some.injEq] at hpn <;>
    (try exact Option.noConfusion hpn)
  case record nm' =>
    rw [hpn]
    simp [expandType, get_record_none ci nm hsplit.1]
  case enum nm' =>
    rw [hpn]
    simp [expandType, get_enum_none ci nm hsplit.2.1]
  case error nm' =>
    rw [hpn]
    simp [expandType, get_error_none ci nm hsplit.2.2.1]
  case object nm' =>
    rw [hpn]
    simp [expandType, get_object_none ci nm hsplit.2.2.2.1]
  case callbackInterface nm' =>
    rw [hpn]
    simp [expandType, get_callback_none ci nm hsplit.2.2.2.2]

theorem iterMeasure_addPending_lt (ci : ComponentInterface) (t : UType)
    (rest : List UType) (seen : List String) (pending : List UType) :
    iterMeasure ci (addPending ⟨rest, seen, pending⟩ t) <
      iterMeasure ci ⟨t :: rest, seen, pending⟩ := by
  rcases addPending_eq ⟨rest, seen, pending⟩ t with heq | ⟨nm, hpn, hns, heq⟩
  · rw [heq]
    simp only [iterMeasure, List.length_cons]
    omega
  · rw [heq]
    simp only [iterMeasure, List.length_cons, List.map_cons, List.sum_cons]
    by_cases hd : nm ∈ declNames ci
    · have hb := budget_cons_mem (nameWeight ci) nm seen hns
        (declNames ci) hd
      have hw := pendWeight_le_nameWeight ci t nm hpn
      simp only [seenBudget]
      omega
    · have hb : seenBudget ci (nm :: seen) = seenBudget ci seen :=
        budget_cons_not_mem (nameWeight ci) nm seen (declNames ci) hd
      have hw : pendWeight ci t = 1 := by
        have hnone := expandType_none_of_not_declared ci t nm hpn hd
        simp [pendWeight, expSize, hnone]
      simp only [seenBudget] at hb ⊢
      omega

theorem iterMeasure_expand_lt (ci : ComponentInterface) (p : UType)
    (ps : List UType) (seen : List String) (ts : List UType)
    (h : expandType ci p = some ts) :
    iterMeasure ci ⟨ts, seen, ps⟩ < iterMeasure ci ⟨[], seen, p :: ps⟩ := by
  simp only [iterMeasure, List.length_nil, List.map_cons, List.sum_cons]
  have hp : pendWeight ci p = 1 + 2 * ts.length := by
    simp [pendWeight, expSize, h]
  omega

theorem iterMeasure_skip_lt (ci : ComponentInterface) (p : UType)
    (ps : List UType) (seen : List String) :
    iterMeasure ci ⟨[], seen, ps⟩ < iterMeasure ci ⟨[], seen, p :: ps⟩ := by
  simp only [iterMeasure, List.length_nil, List.map_cons, List.sum_cons]
  have hp : 1 ≤ pendWeight ci p := by
    simp only [pendWeight]
    omega
  omega

theorem runFuel_complete : ∀ (fuel : Nat) (ci : ComponentInterface)
    (st : IterState), iterMeasure ci st < fuel →
    (runFuel fuel ci st).isSome := by
  intro fuel
  induction fuel with
  | zero => intro ci st h; exact absurd h (Nat.not_lt_zero _)
  | succ n ih =>
    intro ci st h
    obtain ⟨cur, seen, pending⟩ := st
    cases cur with
    | cons t rest =>
      have hlt := iterMeasure_addPending_lt ci t rest seen pending
      have hrec := ih ci (addPending ⟨rest, seen, pending⟩ t) (by omega)
      simp only [runFuel]
      cases hr : runFuel n ci (addPending ⟨rest, seen, pending⟩ t) with
      | none => rw [hr] at hrec; simp at hrec
      | some pr => cases pr; simp
    | nil =>
      cases pending with
      | nil => simp [runFuel]
      | cons p ps =>
        cases hexp : expandType ci p with
        | some ts =>
          have hlt := iterMeasure_expand_lt ci p ps seen ts hexp
          have hrec := ih ci ⟨ts, seen, ps⟩ (by omega)
          simp only [runFuel, hexp]
          cases hr : runFuel n ci ⟨ts, seen, ps⟩ with
          | none => rw [hr] at hrec; simp at hrec
          | some pr => cases pr; simp
        | none =>
          have hlt := iterMeasure_skip_lt ci p ps seen
          have hrec := ih ci ⟨[], seen, ps⟩ (by omega)
          simp only [runFuel, hexp]
          exact hrec

/-! ## Claim C9: inversion of one driver step -/

theorem runFuel_succ_cons (n : Nat) (ci : ComponentInterface) (t : UType)
    (rest : List UType) (seen : List String) (pending : List UType)
    (out : List UType) (ex : List String)
    (h : runFuel (n + 1) ci ⟨t :: rest, seen, pending⟩ = some (out, ex)) :
    ∃ out', runFuel n ci (addPending ⟨rest, seen, pending⟩ t) =
      some (out', ex) ∧ out = t :: out' := by
  simp only [runFuel] at h
  cases hr : runFuel n ci (addPending ⟨rest, seen, pending⟩ t) with
  | none => rw [hr] at h; simp at h
  | some pr =>
    obtain ⟨o, e⟩ := pr
    rw [hr] at h
    simp only [Option.some.injEq, Prod.mk.injEq] at h
    obtain ⟨h1, h2⟩ := h
    subst h2
    exact ⟨o, rfl, h1.symm⟩

theorem runFuel_succ_nil_nil (n : Nat) (ci : ComponentInterface)
    (seen : List String) (out : List UType) (ex : List String)
    (h : runFuel (n + 1) ci ⟨[], seen, []⟩ = some (out, ex)) :
    out = [] ∧ ex = [] := by
  simp only [runFuel, Option.some.injEq, Prod.mk.injEq] at h
  exact ⟨h.1.symm, h.2.symm⟩

theorem runFuel_succ_expand (n : Nat) (ci : ComponentInterface) (p : UType)
    (ps : List UType) (seen : List String) (ts : List UType)
    (out : List UType) (ex : List String)
    (hexp : expandType ci p = some ts)
    (h : runFuel (n + 1) ci ⟨[], seen, p :: ps⟩ = some (out, ex)) :
    ∃ ex', runFuel n ci ⟨ts, seen, ps⟩ = some (out, ex') ∧
      ex = (pendingName p).getD "" :: ex' := by
  simp only [runFuel, hexp] at h
  cases hr : runFuel n ci ⟨ts, seen, ps⟩ with
  | none => rw [hr] at h; simp at h
  | some pr =>
    obtain ⟨o, e⟩ := pr
    rw [hr] at h
    simp only [Option.some.injEq, Prod.mk.injEq] at h
    obtain ⟨h1, h2⟩ := h
    subst h1
    exact ⟨e, rfl, h2.symm⟩

theorem runFuel_succ_skip (n : Nat) (ci : ComponentInterface) (p : UType)
    (ps : List UType) (seen : List String) (out : List UType)
    (ex : List String) (hexp : expandType ci p = none)
    (h : runFuel (n + 1) ci ⟨[], seen, p :: ps⟩ = some (out, ex)) :
    runFuel n ci ⟨[], seen, ps⟩ = some (out, ex) := by
  simp only [runFuel, hexp] at h
  exact h

theorem expandType_pendingName_isSome (ci : ComponentInterface) (p : UType)
    (ts : List UType) (h : expandType ci p = some ts) :
    (pendingName p).isSome := by
  cases p <;> simp only [expandType] at h <;> simp_all [pendingName]

theorem expandType_subset_allMentioned (ci : ComponentInterface) (p : UType)
    (ts : List UType) (h : expandType ci p = some ts) :
    ∀ u ∈ ts, u ∈ allMentioned ci := by
  intro u hu
  cases p <;> simp only [expandType] at h <;> try exact Option.noConfusion h
  case record nm =>
    obtain ⟨r, hr, hts⟩ := Option.map_eq_some'.mp h
    have hrm : r ∈ ci.records := List.mem_of_find?_eq_some hr
    rw [← hts] at hu
    simp only [allMentioned, List.mem_append]
    exact Or.inl (Or.inl (Or.inl (Or.inl (List.mem_flatMap.mpr ⟨r, hrm, hu⟩))))
  case enum nm =>
    obtain ⟨r, hr, hts⟩ := Option.map_eq_some'.mp h
    have hrm : r ∈ ci.enums := List.mem_of_find?_eq_some hr
    rw [← hts] at hu
    simp only [allMentioned, List.mem_append]
    exact Or.inl (Or.inl (Or.inl (Or.inr (List.mem_flatMap.mpr ⟨r, hrm, hu⟩))))
  case error nm =>
    obtain ⟨r, hr, hts⟩ := Option.map_eq_some'.mp h
    have hrm : r ∈ ci.errors := List.mem_of_find?_eq_some hr
    rw [← hts] at hu
    simp only [allMentioned, List.mem_append]
    exact Or.inl (Or.inl (Or.inr (List.mem_flatMap.mpr ⟨r, hrm, hu⟩)))
  case object nm =>
    obtain ⟨r, hr, hts⟩ := Option.map_eq_some'.mp h
    have hrm : r ∈ ci.objects := List.mem_of_find?_eq_some hr
    rw [← hts] at hu
    simp only [allMentioned, List.mem_append]
    exact Or.inl (Or.inr (List.mem_flatMap.mpr ⟨r, hrm, hu⟩))
  case callbackInterface nm =>
    obtain ⟨r, hr, hts⟩ := Option.map_eq_some'.mp h
    have hrm : r ∈ ci.callback_interfaces := List.mem_of_find?_eq_some hr
    rw [← hts] at hu
    simp only [allMentioned, List.mem_append]
    exact Or.inr (List.mem_flatMap.mpr ⟨r, hrm, hu⟩)

theorem mem_allMentioned_records (ci : ComponentInterface) (r : Record)
    (hr : r ∈ ci.records) (u : UType) (hu : u ∈ r.iter_types) :
    u ∈ allMentioned ci := by
  simp only [allMentioned, List.mem_append]
  exact Or.inl (Or.inl (Or.inl (Or.inl (List.mem_flatMap.mpr ⟨r, hr, hu⟩))))

/-! ## Claim C9: every queued declaration is recursed into -/

theorem run_ex_pending : ∀ (fuel : Nat) (ci : ComponentInterface)
    (st : IterState) (out : List UType) (ex : List String),
    runFuel fuel ci st = some (out, ex) →
    ∀ p ∈ st.pending, (expandType ci p).isSome →
      (pendingName p).getD "" ∈ ex := by
  intro fuel
  induction fuel with
  | zero => intro ci st out ex h; simp [runFuel] at h
  | succ n ih =>
    intro ci st out ex h p hp hsome
    obtain ⟨cur, seen, pending⟩ := st
    cases cur with
    | cons t rest =>
      obtain ⟨out', hrec, hout⟩ := runFuel_succ_cons n ci t rest seen pending
        out ex h
      apply ih ci _ out' ex hrec p _ hsome
      rcases addPending_eq ⟨rest, seen, pending⟩ t with he | ⟨nm, _, _, he⟩
      · rw [he]; exact hp
      · rw [he]; exact List.mem_cons_of_mem _ hp
    | nil =>
      cases pending with
      | nil => simp at hp
      | cons p0 ps =>
        cases hexp : expandType ci p0 with
        | some ts =>
          obtain ⟨ex', hrec, hex⟩ := runFuel_succ_expand n ci p0 ps seen ts
            out ex hexp h
          rcases List.mem_cons.mp hp with rfl | hmem
          · rw [hex]; exact List.mem_cons_self _ _
          · rw [hex]
            exact List.mem_cons_of_mem _ (ih ci _ out ex' hrec p hmem hsome)
        | none =>
          have hrec := runFuel_succ_skip n ci p0 ps seen out ex hexp h
          rcases List.mem_cons.mp hp with rfl | hmem
          · rw [hexp] at hsome; simp at hsome
          · exact ih ci _ out ex hrec p hmem hsome

/-! ## Claim C9: everything on the current iterator is yielded -/

theorem run_out_current : ∀ (fuel : Nat) (ci : ComponentInterface)
    (st : IterState) (out : List UType) (ex : List String),
    runFuel fuel ci st = some (out, ex) → ∀ t ∈ st.current, t ∈ out := by
  intro fuel
  induction fuel with
  | zero => intro ci st out ex h; simp [runFuel] at h
  | succ n ih =>
    intro ci st out ex h t ht
    obtain ⟨cur, seen, pending⟩ := st
    cases cur with
    | nil => simp at ht
    | cons t0 rest =>
      obtain ⟨out', hrec, hout⟩ := runFuel_succ_cons n ci t0 rest seen pending
        out ex h
      subst hout
      rcases List.mem_cons.mp ht with rfl | hmem
      · exact List.mem_cons_self _ _
      · refine List.mem_cons_of_mem _
          (ih ci (addPending ⟨rest, seen, pending⟩ t0) out' ex hrec t ?_)
        rcases addPending_eq ⟨rest, seen, pending⟩ t0 with he | ⟨nm, _, _, he⟩
          <;> rw [he] <;> exact hmem

/-! ## Claim C9: named types in the output are seen or recursed into -/

theorem run_named_out : ∀ (fuel : Nat) (ci : ComponentInterface) (nm : String)
    (st : IterState) (out : List UType) (ex : List String),
    runFuel fuel ci st = some (out, ex) →
    (∀ t ∈ st.current, t ∈ allMentioned ci) →
    mentionsOK ci nm →
    ∀ u ∈ out, pendingName u = some nm → nm ∈ st.seen ∨ nm ∈ ex := by
  intro fuel
  induction fuel with
  | zero => intro ci nm st out ex h; simp [runFuel] at h
  | succ n ih =>
    intro ci nm st out ex h hcur hmok u hu hpn
    obtain ⟨cur, seen, pending⟩ := st
    cases cur with
    | cons t rest =>
      obtain ⟨out', hrec, hout⟩ := runFuel_succ_cons n ci t rest seen pending
        out ex h
      have hcur' : ∀ x ∈ rest, x ∈ allMentioned ci := fun x hx =>
        hcur x (List.mem_cons_of_mem _ hx)
      subst hout
      rcases List.mem_cons.mp hu with rfl | hmem
      · -- the head itself carries the name
        by_cases hseen : nm ∈ seen
        · exact Or.inl hseen
        · right
          have hpush : addPending ⟨rest, seen, pending⟩ u =
              ⟨rest, nm :: seen, u :: pending⟩ := by
            simp [addPending, hpn, hseen]
          rw [hpush] at hrec
          have := run_ex_pending n ci ⟨rest, nm :: seen, u :: pending⟩ out' ex
            hrec u (List.mem_cons_self _ _)
            (hmok u (hcur u (List.mem_cons_self _ _)) hpn)
          simpa [hpn] using this
      · -- the name occurs deeper in the output
        have hrest := ih ci nm (addPending ⟨rest, seen, pending⟩ t) out' ex hrec
          (by
            rcases addPending_eq ⟨rest, seen, pending⟩ t with he | ⟨nm0, _, _, he⟩
              <;> rw [he] <;> exact hcur'
            ) hmok u hmem hpn
        rcases addPending_eq ⟨rest, seen, pending⟩ t with he | ⟨nm0, hpn0, hns0, he⟩
        · rw [he] at hrest
          rcases hrest with hseen | hex
          · exact Or.inl hseen
          · exact Or.inr hex
        · rw [he] at hrest hrec
          rcases hrest with hseen | hex
          · rcases List.mem_cons.mp hseen with rfl | hseen'
            · -- nm was just pushed together with t
              right
              have := run_ex_pending n ci ⟨rest, nm :: seen, t :: pending⟩
                out' ex hrec t (List.mem_cons_self _ _)
                (hmok t (hcur t (List.mem_cons_self _ _)) hpn0)
              simpa [hpn0] using this
            · exact Or.inl hseen'
          · exact Or.inr hex
    | nil =>
      cases pending with
      | nil =>
        obtain ⟨hout, _⟩ := runFuel_succ_nil_nil n ci seen out ex h
        subst hout
        simp at hu
      | cons p0 ps =>
        cases hexp : expandType ci p0 with
        | some ts =>
          obtain ⟨ex', hrec, hex⟩ := runFuel_succ_expand n ci p0 ps seen ts
            out ex hexp h
          have hcur' : ∀ x ∈ ts, x ∈ allMentioned ci :=
            expandType_subset_allMentioned ci p0 ts hexp
          rcases ih ci nm _ out ex' hrec hcur' hmok u hu hpn with hseen | hex'
          · exact Or.inl hseen
          · exact Or.inr (by rw [hex]; exact List.mem_cons_of_mem _ hex')
        | none =>
          have hrec := runFuel_succ_skip n ci p0 ps seen out ex hexp h
          exact ih ci nm ⟨[], seen, ps⟩ out ex hrec (by intro x hx; simp at hx)
            hmok u hu hpn

/-! ## Claim C9: the expansion of a recursed declaration is all yielded -/

theorem run_children_out : ∀ (fuel : Nat) (ci : ComponentInterface)
    (nm : String) (t0 : UType) (ts0 : List UType) (st : IterState)
    (out : List UType) (ex : List String),
    runFuel fuel ci st = some (out, ex) →
    (∀ t ∈ st.current, t ∈ allMentioned ci) →
    (∀ p ∈ st.pending, p ∈ allMentioned ci) →
    (∀ u ∈ allMentioned ci, pendingName u = some nm → u = t0) →
    pendingName t0 = some nm →
    expandType ci t0 = some ts0 →
    nm ∈ ex → ∀ u ∈ ts0, u ∈ out := by
  intro fuel
  induction fuel with
  | zero => intro ci nm t0 ts0 st out ex h; simp [runFuel] at h
  | succ n ih =>
    intro ci nm t0 ts0 st out ex h hcur hpend hku hpn0 hexp0 hnm u hu
    obtain ⟨cur, seen, pending⟩ := st
    cases cur with
    | cons t rest =>
      obtain ⟨out', hrec, hout⟩ := runFuel_succ_cons n ci t rest seen pending
        out ex h
      subst hout
      have hcur' : ∀ x ∈ rest, x ∈ allMentioned ci := fun x hx =>
        hcur x (List.mem_cons_of_mem _ hx)
      have hmem : u ∈ out' := by
        rcases addPending_eq ⟨rest, seen, pending⟩ t with he | ⟨nm1, _, _, he⟩
        · rw [he] at hrec
          exact ih ci nm t0 ts0 _ out' ex hrec hcur' hpend hku hpn0 hexp0 hnm
            u hu
        · rw [he] at hrec
          have hpend' : ∀ p ∈ t :: pending, p ∈ allMentioned ci := by
            intro p hp
            rcases List.mem_cons.mp hp with rfl | hp'
            · exact hcur p (List.mem_cons_self _ _)
            · exact hpend p hp'
          exact ih ci nm t0 ts0 _ out' ex hrec hcur' hpend' hku hpn0 hexp0
            hnm u hu
      exact List.mem_cons_of_mem _ hmem
    | nil =>
      cases pending with
      | nil =>
        obtain ⟨_, hex⟩ := runFuel_succ_nil_nil n ci seen out ex h
        rw [hex] at hnm
        simp at hnm
      | cons p0 ps =>
        cases hexp : expandType ci p0 with
        | some ts =>
          obtain ⟨ex', hrec, hex⟩ := runFuel_succ_expand n ci p0 ps seen ts
            out ex hexp h
          rw [hex] at hnm
          rcases List.mem_cons.mp hnm with hhead | htail
          · -- this very expansion is the one recursing into nm
            obtain ⟨nm1, hpn1⟩ := Option.isSome_iff_exists.mp
              (expandType_pendingName_isSome ci p0 ts hexp)
            rw [hpn1] at hhead
            simp only [Option.getD_some] at hhead
            have hp0t0 : p0 = t0 := hku p0 (hpend p0 (List.mem_cons_self _ _))
              (by rw [hpn1, hhead])
            rw [hp0t0, hexp0] at hexp
            have hts : ts0 = ts := Option.some.inj hexp
            apply run_out_current n ci ⟨ts, seen, ps⟩ out ex' hrec
            rw [← hts]
            exact hu
          · have hcur' := expandType_subset_allMentioned ci p0 ts hexp
            have hpend' : ∀ p ∈ ps, p ∈ allMentioned ci := fun p hp =>
              hpend p (List.mem_cons_of_mem _ hp)
            exact ih ci nm t0 ts0 _ out ex' hrec hcur' hpend' hku hpn0 hexp0
              htail u hu
        | none =>
          have hrec := runFuel_succ_skip n ci p0 ps seen out ex hexp h
          have hpend' : ∀ p ∈ ps, p ∈ allMentioned ci := fun p hp =>
            hpend p (List.mem_cons_of_mem _ hp)
          exact ih ci nm t0 ts0 _ out ex hrec (by intro x hx; simp at hx)
            hpend' hku hpn0 hexp0 hnm u hu

/-! ## Claim C9: the seen-set makes the expansion trace duplicate-free -/

theorem run_ex_nodup : ∀ (fuel : Nat) (ci : ComponentInterface)
    (st : IterState) (out : List UType) (ex : List String),
    runFuel fuel ci st = some (out, ex) →
    (st.pending.filterMap pendingName).Nodup →
    (∀ nm ∈ st.pending.filterMap pendingName, nm ∈ st.seen) →
    ex.Nodup ∧ ∀ nm ∈ ex,
      nm ∈ st.pending.filterMap pendingName ∨ ¬ nm ∈ st.seen := by
  intro fuel
  induction fuel with
  | zero => intro ci st out ex h; simp [runFuel] at h
  | succ n ih =>
    intro ci st out ex h hnd hsub
    obtain ⟨cur, seen, pending⟩ := st
    cases cur with
    | cons t rest =>
      obtain ⟨out', hrec, _⟩ := runFuel_succ_cons n ci t rest seen pending
        out ex h
      rcases addPending_eq ⟨rest, seen, pending⟩ t with he | ⟨nm0, hpn0, hns0, he⟩
      · rw [he] at hrec
        exact ih ci ⟨rest, seen, pending⟩ out' ex hrec hnd hsub
      · rw [he] at hrec
        have hfm : (t :: pending).filterMap pendingName =
            nm0 :: pending.filterMap pendingName := by
          simp [List.filterMap_cons, hpn0]
        have hnd' : ((t :: pending).filterMap pendingName).Nodup := by
          rw [hfm]
          refine List.Nodup.cons ?_ hnd
          intro hmem
          exact hns0 (hsub nm0 hmem)
        have hsub' : ∀ nm ∈ (t :: pending).filterMap pendingName,
            nm ∈ nm0 :: seen := by
          rw [hfm]
          intro nm hm
          rcases List.mem_cons.mp hm with rfl | hm'
          · exact List.mem_cons_self _ _
          · exact List.mem_cons_of_mem _ (hsub nm hm')
        obtain ⟨hexnd, hexprop⟩ :=
          ih ci ⟨rest, nm0 :: seen, t :: pending⟩ out' ex hrec hnd' hsub'
        refine ⟨hexnd, ?_⟩
        intro nm hnm
        rcases hexprop nm hnm with hmemfm | hnseen
        · rw [hfm] at hmemfm
          rcases List.mem_cons.mp hmemfm with rfl | hm'
          · exact Or.inr hns0
          · exact Or.inl hm'
        · exact Or.inr fun hs => hnseen (List.mem_cons_of_mem _ hs)
    | nil =>
      cases pending with
      | nil =>
        obtain ⟨_, hex⟩ := runFuel_succ_nil_nil n ci seen out ex h
        subst hex
        exact ⟨List.nodup_nil, by intro nm hnm; simp at hnm⟩
      | cons p0 ps =>
        cases hexp : expandType ci p0 with
        | some ts =>
          obtain ⟨ex', hrec, hex⟩ := runFuel_succ_expand n ci p0 ps seen ts
            out ex hexp h
          obtain ⟨nm0, hpn0⟩ := Option.isSome_iff_exists.mp
            (expandType_pendingName_isSome ci p0 ts hexp)
          have hfm : (p0 :: ps).filterMap pendingName =
              nm0 :: ps.filterMap pendingName := by
            simp [List.filterMap_cons, hpn0]
          rw [hfm] at hnd hsub
          have hnd' : (ps.filterMap pendingName).Nodup :=
            (List.nodup_cons.mp hnd).2
          have hsub' : ∀ nm ∈ ps.filterMap pendingName, nm ∈ seen :=
            fun nm hm => hsub nm (List.mem_cons_of_mem _ hm)
          obtain ⟨hexnd, hexprop⟩ := ih ci _ out ex' hrec hnd' hsub'
          have hx : (pendingName p0).getD "" = nm0 := by rw [hpn0]; rfl
          rw [hex, hx]
          constructor
          · refine List.Nodup.cons ?_ hexnd
            intro hmem
            rcases hexprop nm0 hmem with hm | hnseen
            · exact (List.nodup_cons.mp hnd).1 hm
            · exact hnseen (hsub nm0 (List.mem_cons_self _ _))
          · intro nm hnm
            rcases List.mem_cons.mp hnm with rfl | hm'
            · exact Or.inl (by rw [hfm]; exact List.mem_cons_self _ _)
            · rcases hexprop nm hm' with hm | hnseen
              · exact Or.inl (by
                  rw [hfm]; exact List.mem_cons_of_mem _ hm)
              · exact Or.inr hnseen
        | none =>
          have hrec := runFuel_succ_skip n ci p0 ps seen out ex hexp h
          have hsubfm : ps.filterMap pendingName ⊆
              (p0 :: ps).filterMap pendingName := by
            intro x hx
            cases hpn0 : pendingName p0 with
            | none => simpa [List.filterMap_cons, hpn0] using hx
            | some nm0 =>
              simp only [List.filterMap_cons, hpn0]
              exact List.mem_cons_of_mem _ hx
          have hnd' : (ps.filterMap pendingName).Nodup := by
            cases hpn0 : pendingName p0 with
            | none =>
              have : (p0 :: ps).filterMap pendingName =
                  ps.filterMap pendingName := by
                simp [List.filterMap_cons, hpn0]
              rwa [this] at hnd
            | some nm0 =>
              have : (p0 :: ps).filterMap pendingName =
                  nm0 :: ps.filterMap pendingName := by
                simp [List.filterMap_cons, hpn0]
              rw [this] at hnd
              exact (List.nodup_cons.mp hnd).2
          have hsub' : ∀ nm ∈ ps.filterMap pendingName, nm ∈ seen :=
            fun nm hm => hsub nm (hsubfm hm)
          obtain ⟨hexnd, hexprop⟩ := ih ci _ out ex hrec hnd' hsub'
          refine ⟨hexnd, ?_⟩
          intro nm hnm
          rcases hexprop nm hnm with hm | hnseen
          · exact Or.inl (hsubfm hm)
          · exact Or.inr hnseen

/-! ## Claim C9: main theorem -/

/-- C9: over any interface in which two distinct records reference each other
through their fields (and, per the type-resolution invariant, every mention
of their names resolves to those records), the recursive type iteration
started from either record terminates — the full run is produced with the
computed finite fuel — and the name-keyed seen-set makes it recurse into
each of the two record declarations exactly once. -/
theorem c9_recursive_iteration (ci : ComponentInterface) (n1 n2 : String)
    (r1 r2 : Record)
    (h1 : ci.get_record_definition n1 = some r1)
    (h2 : ci.get_record_definition n2 = some r2)
    (h3 : UType.record n2 ∈ r1.iter_types)
    (h4 : UType.record n1 ∈ r2.iter_types)
    (h5 : n1 ≠ n2)
    (hk1 : ∀ u ∈ allMentioned ci, pendingName u = some n1 →
      u = UType.record n1)
    (hk2 : ∀ u ∈ allMentioned ci, pendingName u = some n2 →
      u = UType.record n2) :
    ∃ out ex, ci.iter_types_in_item_trace (UType.record n1) = some (out, ex) ∧
      ex.count n1 = 1 ∧ ex.count n2 = 1 := by
  have hsome := runFuel_complete (iterFuel ci (UType.record n1)) ci
    (initIterState (UType.record n1)) (by unfold iterFuel; exact Nat.lt_succ_self _)
  rw [Option.isSome_iff_exists] at hsome
  obtain ⟨pr, hrun⟩ := hsome
  obtain ⟨out, ex⟩ := pr
  have hr2mem : r2 ∈ ci.records := List.mem_of_find?_eq_some h2
  have hr1n1 : UType.record n1 ∈ allMentioned ci :=
    mem_allMentioned_records ci r2 hr2mem _ h4
  have hcur0eq : (initIterState (UType.record n1)).current =
      [UType.record n1] := rfl
  have hseen0 : (initIterState (UType.record n1)).seen = [] := rfl
  have hpend0 : (initIterState (UType.record n1)).pending = [] := rfl
  have hcur0 : ∀ t ∈ (initIterState (UType.record n1)).current,
      t ∈ allMentioned ci := by
    intro t ht
    rw [hcur0eq] at ht
    have ht' : t = UType.record n1 := by simpa using ht
    rw [ht']
    exact hr1n1
  have hmok1 : mentionsOK ci n1 := by
    intro u hu hpn
    rw [hk1 u hu hpn]
    simp [expandType, h1]
  have hmok2 : mentionsOK ci n2 := by
    intro u hu hpn
    rw [hk2 u hu hpn]
    simp [expandType, h2]
  have hout1 : UType.record n1 ∈ out := by
    apply run_out_current _ ci (initIterState (UType.record n1)) out ex hrun
    rw [hcur0eq]
    exact List.mem_cons_self _ _
  have hex1 : n1 ∈ ex := by
    rcases run_named_out _ ci n1 (initIterState (UType.record n1)) out ex hrun
      hcur0 hmok1 _ hout1 rfl with hs | hx
    · rw [hseen0] at hs; simp at hs
    · exact hx
  have hexp1 : expandType ci (UType.record n1) = some r1.iter_types := by
    simp [expandType, h1]
  have hout2 : UType.record n2 ∈ out := by
    apply run_children_out _ ci n1 (UType.record n1) r1.iter_types
      (initIterState (UType.record n1)) out ex hrun hcur0
      (by rw [hpend0]; intro p hp; simp at hp) hk1 rfl hexp1 hex1 _ h3
  have hex2 : n2 ∈ ex := by
    rcases run_named_out _ ci n2 (initIterState (UType.record n1)) out ex hrun
      hcur0 hmok2 _ hout2 rfl with hs | hx
    · rw [hseen0] at hs; simp at hs
    · exact hx
  have hnd : ex.Nodup := (run_ex_nodup _ ci (initIterState (UType.record n1))
    out ex hrun (by rw [hpend0]; simp) (by rw [hpend0]; simp)).1
  exact ⟨out, ex, hrun, List.count_eq_one_of_mem hnd hex1,
    List.count_eq_one_of_mem hnd hex2⟩

/-- Witness for C9: the concrete mutually recursive records `A` and `B`;
the iteration over `Record A` completes and recurses into each of the two
declarations exactly once. -/
theorem c9_recursive_iteration_witness :
    ∃ out ex, mutualCI.iter_types_in_item_trace (UType.record "A") =
      some (out, ex) ∧ ex.count "A" = 1 ∧ ex.count "B" = 1 :=
  c9_recursive_iteration mutualCI "A" "B" recA recB (by decide) (by decide)
    (by decide) (by decide) (by decide) (by decide) (by decide)

/-! ## Claim C4 -/

theorem attrDecode_spec (a : Attribute) (r : List HashToken) :
    attrDecode (a.tokens ++ r) = some (a, r) := by
  cases a with
  | selfType st => cases st; rfl
  | _ => rfl

theorem attr_tokens_cancel (a b : Attribute) (r1 r2 : List HashToken)
    (hab : a.tokens ++ r1 = b.tokens ++ r2) : a = b ∧ r1 = r2 := by
  have hd := attrDecode_spec a r1
  rw [hab, attrDecode_spec b r2] at hd
  have h2 := Option.some.inj hd
  exact ⟨(congrArg Prod.fst h2).symm, (congrArg Prod.snd h2).symm⟩

theorem attrList_tokens_inj : ∀ l1 l2 : List Attribute, l1.length = l2.length →
    concatTokens Attribute.tokens l1 = concatTokens Attribute.tokens l2 →
    l1 = l2 := by
  intro l1
  induction l1 with
  | nil =>
    intro l2 hl _
    cases l2 with
    | nil => rfl
    | cons y ys => simp at hl
  | cons x xs ih =>
    intro l2 hl hc
    cases l2 with
    | nil => simp at hl
    | cons y ys =>
      simp only [concatTokens] at hc
      obtain ⟨hxy, hr⟩ := attr_tokens_cancel x y _ _ hc
      subst hxy
      rw [ih ys (by simpa using hl) hr]

theorem FunctionAttributes.tokens_inj (a b : FunctionAttributes)
    (h : a.tokens = b.tokens) : a = b := by
  unfold FunctionAttributes.tokens listTokens at h
  have hlen := HashToken.usize.inj (List.cons.inj h).1
  have hct := (List.cons.inj h).2
  cases a with
  | mk la =>
    cases b with
    | mk lb => rw [attrList_tokens_inj la lb hlen hct]

theorem Object.tokens_setFlag (b : Bool) (o : Object) :
    Object.tokens { o with uses_deprecated_threadsafe_attribute := b } =
      o.tokens := rfl

/-- Counterexample to C4: two interfaces that differ only in an object's
deprecated thread-safety marker (an attribute-derived field of the
declaration) feed byte-for-byte identical streams to the hasher, because
`impl Hash for Object` omits `uses_deprecated_threadsafe_attribute`. -/
theorem c4_threadsafe_marker_counterexample :
    objCIfalse.tokens = objCItrue.tokens ∧
    objCIfalse.objects.map Object.uses_deprecated_threadsafe_attribute ≠
      objCItrue.objects.map Object.uses_deprecated_threadsafe_attribute ∧
    objCIfalse ≠ objCItrue :=
  ⟨rfl, by decide, by decide⟩

/-- C4 as amended: the checksum hash input covers every declaration's name,
members and attributes except an Object's deprecated thread-safety marker:
setting that marker arbitrarily on every object leaves the hash input
unchanged, while changing the attribute set of any function (all other data
equal) always changes the bytes fed to the hasher, since the attribute
encoding is injective in its context. -/
theorem c4_hash_input_attributes (ci : ComponentInterface) (b : Bool)
    (pre post : List Function) (f : Function) (a' : FunctionAttributes)
    (hsplit : ci.functions = pre ++ f :: post) (hne : a' ≠ f.attributes) :
    (setThreadsafeAll b ci).tokens = ci.tokens ∧
    (withFunctions (pre ++ setAttrs a' f :: post) ci).tokens ≠ ci.tokens := by
  constructor
  · simp [setThreadsafeAll, ComponentInterface.tokens, listTokens_map,
      Object.tokens_setFlag]
  · intro heq
    simp only [withFunctions, ComponentInterface.tokens] at heq
    rw [hsplit] at heq
    have h1 := List.append_cancel_right heq
    have h2 := List.append_cancel_right h1
    have h3 := List.append_cancel_right h2
    have h4 := List.append_cancel_left h3
    simp only [listTokens] at h4
    have hct := (List.cons.inj h4).2
    rw [concatTokens_append, concatTokens_append] at hct
    have h5 := List.append_cancel_left hct
    simp only [concatTokens] at h5
    have h6 := List.append_cancel_right h5
    have h7 : (setAttrs a' f).tokens = f.tokens := h6
    unfold setAttrs Function.tokens at h7
    have h8 := List.append_cancel_left h7
    exact hne (FunctionAttributes.tokens_inj _ _ h8)

/-- Witness for C4 (amended): flipping the thread-safety marker on the
`hello` scenario interface keeps the hash input, while giving `hello` a
`[Threadsafe]` attribute changes it. -/
theorem c4_hash_input_attributes_witness :
    (setThreadsafeAll true exampleCI).tokens = exampleCI.tokens ∧
    (withFunctions ([] ++ setAttrs { attrs := [Attribute.threadsafe] } helloFn
      :: []) exampleCI).tokens ≠ exampleCI.tokens :=
  c4_hash_input_attributes exampleCI true [] [] helloFn
    { attrs := [Attribute.threadsafe] } rfl (by decide)

end Uniffi
